import Mathlib

/-!
Verification of the backtesting core of a trading-strategy repository.

The repository implements three pandas-based trading strategies
(`SmaCrossoverStrategy`, `RsiBollingerStrategy`, `VWAPReversionStrategy`),
each with `generate_signals`, `run_backtest` and `get_metrics`.

Modelling conventions for the shallow embedding:
* A pandas float cell is `V := Option ℚ`: `none` models NaN (missing /
  undefined), `some q` a finite numeric value.  Exact rational arithmetic
  stands in for IEEE doubles; the properties checked here are structural
  (lengths, NaN propagation, signs, monotonicity), not rounding-sensitive.
* Arithmetic on `V` propagates `none` exactly as NumPy propagates NaN.
  Division by zero (which yields a non-finite float, `inf` or NaN) is
  modelled as `none`; no theorem below depends on inputs that divide by zero.
* Comparisons mirror pandas: any comparison with NaN is `False`, while
  `series != 0` is `True` on NaN cells (this asymmetry is load-bearing in
  the cost masks of `run_backtest`).
* Columns are `List V`; each pandas column operation (`shift`, `diff`,
  `pct_change`, `rolling(w).mean()/.std()`, `cumsum`, `cumprod`, `cummax`,
  `mean`, `min`) is translated index-by-index with its skipna semantics.
* The Bollinger-band comparisons `close < mid - 2*std` / `close > mid + 2*std`
  are encoded exactly over ℚ in squared form (std = sqrt of the sample
  variance, and for `v ≥ 0`: `x > 2*sqrt v ↔ 0 < x ∧ 4*v < x^2`), avoiding
  irrational square roots.
-/

/- Batteries marks the `Rat` field operations `@[irreducible]`, which blocks
`decide` on concrete rational computations; restore default reducibility
locally so concrete witnesses evaluate. -/
attribute [local semireducible] Rat.add Rat.mul Rat.sub Rat.inv Rat.ofScientific

set_option maxRecDepth 10000

/-- A pandas float cell: `none` is NaN, `some q` a finite value. -/
abbrev V : Type := Option ℚ

/-- NaN-propagating addition. -/
def addV : V → V → V
  | some a, some b => some (a + b)
  | _, _ => none

/-- NaN-propagating subtraction. -/
def subV : V → V → V
  | some a, some b => some (a - b)
  | _, _ => none

/-- NaN-propagating multiplication (`0 * NaN = NaN`, as in NumPy). -/
def mulV : V → V → V
  | some a, some b => some (a * b)
  | _, _ => none

/-- NaN-propagating division.  Division by zero yields a non-finite float in
NumPy; it is modelled as undefined (`none`). -/
def divV : V → V → V
  | some a, some b => if b = 0 then none else some (a / b)
  | _, _ => none

/-- NaN-propagating negation. -/
def negV : V → V := Option.map (fun q => -q)

/-- Pandas `<`: any comparison involving NaN is `False`. -/
def ltV : V → V → Bool
  | some a, some b => decide (a < b)
  | _, _ => false

/-- Pandas `>`: any comparison involving NaN is `False`. -/
def gtV (a b : V) : Bool := ltV b a

/-- Pandas `series != 0`: `True` on a NaN cell (NaN compares unequal). -/
def neZeroV : V → Bool
  | some a => decide (a ≠ 0)
  | none => true

/-- Python `x == 0` on a float: `False` on NaN. -/
def eqZeroV : V → Bool
  | some a => decide (a = 0)
  | none => false

/-- Total cell access: out-of-range reads give NaN (never used out of range
by the translated code; it makes index manipulation total). -/
def getV (xs : List V) (t : ℕ) : V := xs.getD t none

/-- Pandas `Series.shift(k)` for `k ≥ 0`: `k` leading NaN cells. -/
def shiftV (k : ℕ) (xs : List V) : List V :=
  (List.range xs.length).map (fun t => if t < k then none else getV xs (t - k))

/-- Pandas `Series.diff()`: `x[t] - x[t-1]`, NaN at `t = 0`. -/
def diffV (xs : List V) : List V :=
  (List.range xs.length).map
    (fun t => if t = 0 then none else subV (getV xs t) (getV xs (t - 1)))

/-- Pandas `Series.pct_change()`: `(x[t] - x[t-1]) / x[t-1]`, NaN at `t = 0`. -/
def pctChangeV (xs : List V) : List V :=
  (List.range xs.length).map
    (fun t => if t = 0 then none
      else divV (subV (getV xs t) (getV xs (t - 1))) (getV xs (t - 1)))

/-- The trailing window of width `w` ending at index `t`. -/
def windowV (w t : ℕ) (xs : List V) : List V := (xs.take (t + 1)).drop (t + 1 - w)

/-- Pandas `Series.rolling(w).mean()`: defined once the window is full and
free of NaN (`min_periods` defaults to the window size). -/
def rollingMeanV (w : ℕ) (xs : List V) : List V :=
  (List.range xs.length).map (fun t =>
    if 1 ≤ w ∧ w ≤ t + 1 ∧ (windowV w t xs).all Option.isSome then
      some (((windowV w t xs).filterMap id).sum / (w : ℚ))
    else none)

/-- Pandas `Series.rolling(w).var()` with the default `ddof = 1` (sample
variance): defined once the window is full and free of NaN; a window of
width 1 gives NaN (division by `ddof` zero).  `rolling(w).std()` is its
square root; comparisons against the std are encoded in squared form. -/
def rollingVarV (w : ℕ) (xs : List V) : List V :=
  (List.range xs.length).map (fun t =>
    if 2 ≤ w ∧ w ≤ t + 1 ∧ (windowV w t xs).all Option.isSome then
      some ((((windowV w t xs).filterMap id).map
        (fun x => (x - ((windowV w t xs).filterMap id).sum / (w : ℚ)) ^ 2)).sum
          / ((w : ℚ) - 1))
    else none)

/-- Pandas `Series.cumsum()` on a NaN-free column. -/
def cumsumQ (xs : List ℚ) : List ℚ :=
  (List.range xs.length).map (fun t => (xs.take (t + 1)).sum)

/-- Pandas `Series.cumprod()` (skipna): NaN cells stay NaN, numeric cells get
the product of all numeric cells up to and including them. -/
def cumprodV (xs : List V) : List V :=
  (List.range xs.length).map (fun t =>
    if (getV xs t).isSome then some (((xs.take (t + 1)).filterMap id).prod)
    else none)

/-- Pandas `Series.cummax()` (skipna): NaN cells stay NaN, numeric cells get
the max of all numeric cells up to and including them. -/
def cummaxV (xs : List V) : List V :=
  (List.range xs.length).map (fun t =>
    if (getV xs t).isSome then ((xs.take (t + 1)).filterMap id).max?
    else none)

/-- Pandas `Series.min()` (skipna): NaN when no cell is numeric. -/
def minV (xs : List V) : V := (xs.filterMap id).min?

/-- Pandas `Series.mean()` (skipna): NaN when no cell is numeric. -/
def meanV (xs : List V) : V :=
  if (xs.filterMap id).length = 0 then none
  else some ((xs.filterMap id).sum / ((xs.filterMap id).length : ℚ))

/-- One OHLCV bar, restricted to the fields the strategies read. -/
structure Bar where
  close : ℚ
  volume : ℚ
deriving DecidableEq

/-- The `close` column of a bar series, as a float column. -/
def closeCol (bars : List Bar) : List V := bars.map (fun b => some b.close)

/-- The `volume` column of a bar series. -/
def volumeCol (bars : List Bar) : List ℚ := bars.map Bar.volume

namespace SmaCrossoverStrategy

/-- `np.where(SMA_Short > SMA_Long, 1, 0)`: the raw long-or-flat position
(NaN means on either rolling mean yield `False`, hence position 0). -/
def rawPosition (short long : ℕ) (closes : List ℚ) : List ℚ :=
  (List.range closes.length).map (fun t =>
    if gtV (getV (rollingMeanV short (closes.map some)) t)
        (getV (rollingMeanV long (closes.map some)) t) then 1 else 0)

/-- `SmaCrossoverStrategy.generate_signals`: the emitted signal column is the
discrete change (`.diff()`) of the raw position. -/
def generate_signals (short long : ℕ) (closes : List ℚ) : List V :=
  diffV ((rawPosition short long closes).map some)

/-- `data["strategy_return"] = data["signal"].shift() * data["close"].pct_change()`. -/
def strategy_return (short long : ℕ) (closes : List ℚ) : List V :=
  List.zipWith mulV (shiftV 1 (generate_signals short long closes))
    (pctChangeV (closes.map some))

/-- `SmaCrossoverStrategy.run_backtest`:
`balance = initial_balance * (1 + strategy_return).cumprod()` (no fillna). -/
def run_backtest (short long : ℕ) (closes : List ℚ) (initial_balance : ℚ) : List V :=
  (cumprodV ((strategy_return short long closes).map (addV (some 1)))).map
    (mulV (some initial_balance))

/-- `SmaCrossoverStrategy.get_metrics` runs `run_backtest()` with the default
initial balance 10000 and returns
`total_return = balance.iloc[-1] - balance.iloc[0]` (absolute dollar delta). -/
def total_return (short long : ℕ) (closes : List ℚ) : V :=
  subV (getV (run_backtest short long closes 10000)
      ((run_backtest short long closes 10000).length - 1))
    (getV (run_backtest short long closes 10000) 0)

/-- `final_balance = backtest["balance"].iloc[-1]` in `get_metrics`. -/
def final_balance (short long : ℕ) (closes : List ℚ) : V :=
  getV (run_backtest short long closes 10000)
    ((run_backtest short long closes 10000).length - 1)

end SmaCrossoverStrategy

namespace RsiBollingerStrategy

/-- `delta = data["close"].diff()`. -/
def delta (closes : List ℚ) : List V := diffV (closes.map some)

/-- `delta.where(delta > 0, 0.0)`: positive moves, with the NaN at index 0
replaced by 0 (the `where` condition is `False` on NaN). -/
def gain (closes : List ℚ) : List ℚ :=
  (delta closes).map (fun d => match d with
    | some x => if 0 < x then x else 0
    | none => 0)

/-- `-delta.where(delta < 0, 0.0)`: magnitudes of negative moves, NaN at
index 0 replaced by 0. -/
def loss (closes : List ℚ) : List ℚ :=
  (delta closes).map (fun d => match d with
    | some x => if x < 0 then -x else 0
    | none => 0)

/-- `rs = gain.rolling(p).mean() / (loss.rolling(p).mean() + 1e-9)`.
The literal `1e-9` is modelled as the exact rational `1 / 10^9`. -/
def rs (rsi_period : ℕ) (closes : List ℚ) : List V :=
  List.zipWith divV (rollingMeanV rsi_period ((gain closes).map some))
    ((rollingMeanV rsi_period ((loss closes).map some)).map
      (fun v => addV v (some (1 / 10 ^ 9))))

/-- `RSI = 100 - 100 / (1 + rs)`. -/
def RSI (rsi_period : ℕ) (closes : List ℚ) : List V :=
  (rs rsi_period closes).map
    (fun r => subV (some 100) (divV (some 100) (addV (some 1) r)))

/-- `BB_Mid = close.rolling(bb_period).mean()`. -/
def BB_Mid (bb_period : ℕ) (closes : List ℚ) : List V :=
  rollingMeanV bb_period (closes.map some)

/-- The sample variance of the Bollinger window; `BB_Upper/BB_Lower` are
`BB_Mid ± 2 * sqrt` of this. -/
def bbVar (bb_period : ℕ) (closes : List ℚ) : List V :=
  rollingVarV bb_period (closes.map some)

/-- The mask `data["close"] < data["BB_Lower"]`, i.e.
`close < mid - 2*std`, encoded exactly over ℚ:
for `v ≥ 0`, `mid - close > 2*sqrt v ↔ 0 < mid - close ∧ 4*v < (mid - close)^2`.
On a NaN band (window not yet full) the comparison is `False`, as in pandas. -/
def belowLowerBand (mid v : V) (close : ℚ) : Bool :=
  match mid, v with
  | some m, some var => decide (0 < m - close) && decide (4 * var < (m - close) ^ 2)
  | _, _ => false

/-- The mask `data["close"] > data["BB_Upper"]`, i.e. `close > mid + 2*std`,
encoded exactly over ℚ in squared form; `False` on a NaN band. -/
def aboveUpperBand (mid v : V) (close : ℚ) : Bool :=
  match mid, v with
  | some m, some var => decide (0 < close - m) && decide (4 * var < (close - m) ^ 2)
  | _, _ => false

/-- `RsiBollingerStrategy.generate_signals`: signal 1 where
`RSI < 40 ∧ close < BB_Lower`, then signal -1 where
`RSI > 60 ∧ close > BB_Upper` (the later `.loc` assignment wins; the two
conditions are mutually exclusive), else 0.  The column has no NaN. -/
def generate_signals (rsi_period bb_period : ℕ) (closes : List ℚ) : List ℚ :=
  (List.range closes.length).map (fun t =>
    if aboveUpperBand (getV (BB_Mid bb_period closes) t)
        (getV (bbVar bb_period closes) t) (closes.getD t 0)
        && gtV (getV (RSI rsi_period closes) t) (some 60) then -1
    else if belowLowerBand (getV (BB_Mid bb_period closes) t)
        (getV (bbVar bb_period closes) t) (closes.getD t 0)
        && ltV (getV (RSI rsi_period closes) t) (some 40) then 1
    else 0)

/-- `data["signal"] = data["signal"].shift(execution_lag)`: the effective
(lagged) signal column used by the non-short-circuit path of `run_backtest`. -/
def effectiveSignal (rsi_period bb_period : ℕ) (closes : List ℚ)
    (execution_lag : ℕ) : List V :=
  shiftV execution_lag ((generate_signals rsi_period bb_period closes).map some)

/-- `price_with_slippage = close * (1 + slippage_percent * signal)` (the
already-lagged signal column). -/
def price_with_slippage (rsi_period bb_period : ℕ) (closes : List ℚ)
    (slippage_percent : ℚ) (execution_lag : ℕ) : List V :=
  List.zipWith
    (fun c s => mulV c (addV (some 1) (mulV (some slippage_percent) s)))
    (closes.map some) (effectiveSignal rsi_period bb_period closes execution_lag)

/-- `return_with_slippage = signal.shift() * price_with_slippage.pct_change()`,
before the transaction cost is charged. -/
def preCostReturn (rsi_period bb_period : ℕ) (closes : List ℚ)
    (slippage_percent : ℚ) (execution_lag : ℕ) : List V :=
  List.zipWith mulV
    (shiftV 1 (effectiveSignal rsi_period bb_period closes execution_lag))
    (pctChangeV (price_with_slippage rsi_period bb_period closes
      slippage_percent execution_lag))

/-- `data.loc[data["signal"] != 0, "return_with_slippage"] -= transaction_cost`:
the cost is subtracted exactly on the cells where the lagged signal column
compares unequal to 0 (which includes its NaN cells). -/
def return_with_slippage (rsi_period bb_period : ℕ) (closes : List ℚ)
    (transaction_cost slippage_percent : ℚ) (execution_lag : ℕ) : List V :=
  List.zipWith
    (fun s r => if neZeroV s then subV r (some transaction_cost) else r)
    (effectiveSignal rsi_period bb_period closes execution_lag)
    (preCostReturn rsi_period bb_period closes slippage_percent execution_lag)

/-- `(1 + return_with_slippage.fillna(0))`: the per-bar compounding factor of
the non-short-circuit path; NaN returns contribute a factor of 1. -/
def fillnaFactor (rsi_period bb_period : ℕ) (closes : List ℚ)
    (transaction_cost slippage_percent : ℚ) (execution_lag : ℕ) : List ℚ :=
  (return_with_slippage rsi_period bb_period closes transaction_cost
      slippage_percent execution_lag).map (fun v => 1 + v.getD 0)

/-- The balance column of the non-short-circuit path:
`initial_balance * (1 + return_with_slippage.fillna(0)).cumprod()`. -/
def tradingBalance (rsi_period bb_period : ℕ) (closes : List ℚ)
    (initial_balance transaction_cost slippage_percent : ℚ)
    (execution_lag : ℕ) : List V :=
  (cumprodV ((fillnaFactor rsi_period bb_period closes transaction_cost
      slippage_percent execution_lag).map some)).map
    (mulV (some initial_balance))

/-- The result of `RsiBollingerStrategy.run_backtest`: `flat` records whether
the `signal.sum() == 0` short-circuit fired (the path that logs the warning
"No signals were generated during the backtest." and returns a constant
balance column without ever applying lag, slippage or cost). -/
structure BacktestResult where
  flat : Bool
  signal : List V
  balance : List V
deriving DecidableEq

/-- `RsiBollingerStrategy.run_backtest`.  On the short-circuit path the
returned signal column is the unshifted generated one and
`data["balance"] = initial_balance` broadcasts a constant column. -/
def run_backtest (rsi_period bb_period : ℕ) (closes : List ℚ)
    (initial_balance transaction_cost slippage_percent : ℚ)
    (execution_lag : ℕ) : BacktestResult :=
  if (generate_signals rsi_period bb_period closes).sum = 0 then
    { flat := true
      signal := (generate_signals rsi_period bb_period closes).map some
      balance := List.replicate closes.length (some initial_balance) }
  else
    { flat := false
      signal := effectiveSignal rsi_period bb_period closes execution_lag
      balance := tradingBalance rsi_period bb_period closes initial_balance
        transaction_cost slippage_percent execution_lag }

/-- `RsiBollingerStrategy.get_metrics` runs `run_backtest()` with its default
arguments (initial balance 10000, cost 1e-4, slippage 1e-4, lag 1) and
returns `(final/initial) - 1`, guarded to 0 when either balance endpoint
compares equal to 0 (a Python `==` comparison, `False` on NaN). -/
def metricsBalance (rsi_period bb_period : ℕ) (closes : List ℚ) : List V :=
  (run_backtest rsi_period bb_period closes 10000 (1 / 10 ^ 4)
    (1 / 10 ^ 4) 1).balance

/-- The guarded fractional return of `RsiBollingerStrategy.get_metrics`. -/
def total_return (rsi_period bb_period : ℕ) (closes : List ℚ) : V :=
  if eqZeroV (getV (metricsBalance rsi_period bb_period closes) 0) ||
      eqZeroV (getV (metricsBalance rsi_period bb_period closes)
        ((metricsBalance rsi_period bb_period closes).length - 1)) then some 0
  else subV (divV (getV (metricsBalance rsi_period bb_period closes)
      ((metricsBalance rsi_period bb_period closes).length - 1))
    (getV (metricsBalance rsi_period bb_period closes) 0)) (some 1)

end RsiBollingerStrategy

namespace VWAPReversionStrategy

/-- `VWAPReversionStrategy._calculate_vwap`:
`vwap = (close * volume).cumsum() / volume.cumsum()`. -/
def vwap (bars : List Bar) : List V :=
  List.zipWith (fun tpv vol => divV (some tpv) (some vol))
    (cumsumQ (bars.map (fun b => b.close * b.volume)))
    (cumsumQ (volumeCol bars))

/-- `deviation = (close - vwap) / vwap`. -/
def deviation (bars : List Bar) : List V :=
  List.zipWith (fun c w => divV (subV c w) w) (closeCol bars) (vwap bars)

/-- `volatility = close.rolling(14).std()`.  The standard deviation is the
square root of the sample variance; `Rat.sqrt` is exact whenever the
variance is a perfect rational square (in particular on the value 0), and
every concrete input used below keeps the 14-bar window unfull (NaN) or the
variance 0, where this model coincides exactly with the source. -/
def volatility (bars : List Bar) : List V :=
  (rollingVarV 14 (closeCol bars)).map (Option.map Rat.sqrt)

/-- `dynamic_threshold = threshold * (volatility / volatility.mean())`. -/
def dynamic_threshold (threshold : ℚ) (bars : List Bar) : List V :=
  (volatility bars).map
    (fun v => mulV (some threshold) (divV v (meanV (volatility bars))))

/-- The signal level before the look-ahead shift: 1 where
`deviation < -dynamic_threshold`, then -1 where
`deviation > dynamic_threshold` (the later `.loc` assignment wins), else 0. -/
def rawSignal (threshold : ℚ) (bars : List Bar) : List ℚ :=
  (List.range bars.length).map (fun t =>
    if gtV (getV (deviation bars) t)
        (getV (dynamic_threshold threshold bars) t) then -1
    else if ltV (getV (deviation bars) t)
        (negV (getV (dynamic_threshold threshold bars) t)) then 1
    else 0)

/-- `VWAPReversionStrategy.generate_signals`: the raw signal column shifted
forward one bar (`data["signal"] = data["signal"].shift()`), so index 0 is
always NaN. -/
def generate_signals (threshold : ℚ) (bars : List Bar) : List V :=
  shiftV 1 ((rawSignal threshold bars).map some)

/-- `data["return"] = data["close"].pct_change()`. -/
def barReturn (bars : List Bar) : List V := pctChangeV (closeCol bars)

/-- `strategy_return = signal * return`, before the transaction cost. -/
def preCostReturn (threshold : ℚ) (bars : List Bar) : List V :=
  List.zipWith mulV (generate_signals threshold bars) (barReturn bars)

/-- `data.loc[data["signal"] != 0, "strategy_return"] -= transaction_cost`:
cost subtracted exactly on cells where the signal column compares unequal
to 0 (including its NaN cell at index 0). -/
def strategy_return (threshold : ℚ) (bars : List Bar)
    (transaction_cost : ℚ) : List V :=
  List.zipWith
    (fun s r => if neZeroV s then subV r (some transaction_cost) else r)
    (generate_signals threshold bars) (preCostReturn threshold bars)

/-- `VWAPReversionStrategy.run_backtest`:
`balance = initial_balance * (1 + strategy_return).cumprod()` (no fillna). -/
def run_backtest (threshold : ℚ) (bars : List Bar)
    (initial_balance transaction_cost : ℚ) : List V :=
  (cumprodV ((strategy_return threshold bars transaction_cost).map
      (addV (some 1)))).map (mulV (some initial_balance))

/-- The drawdown column `backtest["balance"] / backtest["balance"].cummax() - 1`
of `get_metrics`, for an arbitrary balance column. -/
def drawdownCol (b : List V) : List V :=
  List.zipWith (fun x m => subV (divV x m) (some 1)) b (cummaxV b)

/-- `max_drawdown = (balance / balance.cummax() - 1).min()` on an arbitrary
balance column. -/
def maxDrawdownOf (b : List V) : V := minV (drawdownCol b)

/-- The default-argument balance column used by
`VWAPReversionStrategy.get_metrics` (it calls `run_backtest()` with initial
balance 10000 and transaction cost 0.001). -/
def metricsBalance (threshold : ℚ) (bars : List Bar) : List V :=
  run_backtest threshold bars 10000 (1 / 10 ^ 3)

/-- `max_drawdown` as computed by `VWAPReversionStrategy.get_metrics`. -/
def max_drawdown (threshold : ℚ) (bars : List Bar) : V :=
  maxDrawdownOf (metricsBalance threshold bars)

/-- `total_return = balance.iloc[-1] / balance.iloc[0] - 1` as computed by
`VWAPReversionStrategy.get_metrics` (fractional return convention). -/
def total_return (threshold : ℚ) (bars : List Bar) : V :=
  subV (divV (getV (metricsBalance threshold bars)
      ((metricsBalance threshold bars).length - 1))
    (getV (metricsBalance threshold bars) 0)) (some 1)

end VWAPReversionStrategy

/-! ### Concrete series used by the witnesses and counterexamples -/

/-- A close series on which the Rsi/Bollinger strategy emits one +1 (bar 5,
after a crash) and one -1 (bar 10, after a spike), with `rsi_period = 2`,
`bb_period = 6`; the two signals cancel, so `signal.sum() == 0`. -/
def cancelCloses : List ℚ := [100, 100, 100, 100, 100, 1, 1, 1, 1, 1, 100]

/-- A close series on which the Rsi/Bollinger strategy emits a single -1
(bar 5, after a spike) with `rsi_period = 2`, `bb_period = 6`; the short
position then suffers the 4x rise at bar 7, driving a compounding factor
negative. -/
def shortLossCloses : List ℚ := [1, 1, 1, 1, 1, 100, 100, 400]

/-- A single-bar series. -/
def oneBar : List Bar := [⟨100, 10⟩]

/-- A three-bar series with constant volume whose VWAP backtest balance is
`[NaN, 10000, 10000]`. -/
def threeBars : List Bar := [⟨100, 10⟩, ⟨100, 10⟩, ⟨101, 10⟩]

/-- The no-trade reading of a signal column: every cell is 0 or NaN (the
spec treats an undefined leading cell as "no signal"). -/
abbrev noTradeV (xs : List V) : Prop :=
  ∀ t, t < xs.length → getV xs t = some 0 ∨ getV xs t = none

/-- Comparison of two cells that holds vacuously when either is NaN. -/
def leDefB : V → V → Bool
  | some a, some c => decide (a ≤ c)
  | _, _ => true

/-- The numeric cells of the column are non-decreasing (NaN cells are
skipped, as pandas skips them in `cummax`). -/
abbrev definedMono (b : List V) : Prop :=
  ∀ t, t < b.length → ∀ s, s < t → leDefB (getV b s) (getV b t) = true

/-- Every numeric cell of the column is positive. -/
abbrev definedPos (b : List V) : Prop :=
  ∀ t, t < b.length → 0 < (getV b t).getD 1

/-- The column has at least one numeric cell. -/
abbrev someDefined (b : List V) : Prop :=
  ∃ t, t < b.length ∧ (getV b t).isSome = true

/-- The per-bar compounding factor column `1 + strategy_return` of the VWAP
backtest (no fillna: NaN returns give NaN factors, skipped by cumprod). -/
def VWAPReversionStrategy.factorCol (θ : ℚ) (bars : List Bar)
    (transaction_cost : ℚ) : List V :=
  (VWAPReversionStrategy.strategy_return θ bars transaction_cost).map
    (addV (some 1))

/-! ### Aliasing model

To state the frame-effect claim (the strategies never mutate the caller's
`price_data`), DataFrames are modelled with explicit reference semantics: a
heap of frames addressed by index, where `df.copy()` allocates a fresh frame
and `df[col] = ...` / `df.loc[mask, col] -= ...` mutate the addressed frame
in place.  Each method is re-traced as a heap program performing exactly the
copies and column writes of the source, and the theorem states the caller's
frame is bit-identical afterwards. -/

/-- A DataFrame: named float columns. -/
abbrev Frame : Type := List (String × List V)

/-- Read a column (empty if absent; the translated code only reads columns
it knows exist). -/
def getColF (f : Frame) (name : String) : List V :=
  match f.find? (fun p => p.1 == name) with
  | some p => p.2
  | none => []

/-- In-place single-column assignment `df[name] = xs`: replace the column if
present, else append it. -/
def setColF (f : Frame) (name : String) (xs : List V) : Frame :=
  if f.any (fun p => p.1 == name) then
    f.map (fun p => if p.1 == name then (name, xs) else p)
  else f ++ [(name, xs)]

/-- The heap of live DataFrames; a DataFrame reference is an index into it. -/
abbrev Heap := List Frame

/-- Dereference a frame. -/
def readF (h : Heap) (i : ℕ) : Frame := h.getD i []

/-- `df.copy()` / allocation of a fresh frame: returns the new heap and the
fresh reference. -/
def allocF (h : Heap) (f : Frame) : Heap × ℕ := (h ++ [f], h.length)

/-- Mutate the frame at reference `i`. -/
def writeF (h : Heap) (i : ℕ) (f : Frame) : Heap := h.set i f

/-- `h[i][name] = xs`: in-place column write through a reference. -/
def setColH (h : Heap) (i : ℕ) (name : String) (xs : List V) : Heap :=
  writeF h i (setColF (readF h i) name xs)

/-- Pandas `Series.cumsum()` (skipna) on a float column. -/
def cumsumV (xs : List V) : List V :=
  (List.range xs.length).map (fun t =>
    if (getV xs t).isSome then some (((xs.take (t + 1)).filterMap id).sum)
    else none)

/-- Pandas `Series.sum()` (skipna, 0 on all-NaN). -/
def sumV (xs : List V) : ℚ := (xs.filterMap id).sum

namespace SmaCrossoverStrategy

/-- `np.where(SMA_Short > SMA_Long, 1, 0)` over stored float columns. -/
def rawPositionV (short long : ℕ) (close : List V) : List ℚ :=
  (List.range close.length).map (fun t =>
    if gtV (getV (rollingMeanV short close) t)
        (getV (rollingMeanV long close) t) then 1 else 0)

/-- `SmaCrossoverStrategy.generate_signals` as a heap program:
`data = self.price_data.copy()`, then three column writes on the copy. -/
def generate_signalsH (short long : ℕ) (h : Heap) (price_data : ℕ) : Heap × ℕ :=
  let a := allocF h (readF h price_data)
  let d := a.2
  let close := getColF (readF a.1 d) "close"
  let h1 := setColH a.1 d "SMA_Short" (rollingMeanV short close)
  let h2 := setColH h1 d "SMA_Long" (rollingMeanV long close)
  let h3 := setColH h2 d "signal"
    (diffV ((rawPositionV short long close).map some))
  (h3, d)

/-- `SmaCrossoverStrategy.run_backtest` as a heap program: two more column
writes on the frame returned by `generate_signals`. -/
def run_backtestH (short long : ℕ) (initial_balance : ℚ) (h : Heap)
    (price_data : ℕ) : Heap × ℕ :=
  let g := generate_signalsH short long h price_data
  let d := g.2
  let sr := List.zipWith mulV (shiftV 1 (getColF (readF g.1 d) "signal"))
    (pctChangeV (getColF (readF g.1 d) "close"))
  let h1 := setColH g.1 d "strategy_return" sr
  let h2 := setColH h1 d "balance"
    ((cumprodV (sr.map (addV (some 1)))).map (mulV (some initial_balance)))
  (h2, d)

end SmaCrossoverStrategy

namespace RsiBollingerStrategy

/-- The generated signal cell for a stored float close column (NaN close
cells satisfy neither band condition, as in pandas). -/
def signalCellV (rsi_period bb_period : ℕ) (close : List V) (t : ℕ) : ℚ :=
  match getV close t with
  | some c =>
    if aboveUpperBand (getV (rollingMeanV bb_period close) t)
        (getV (rollingVarV bb_period close) t) c
        && gtV (getV ((rollingMeanV rsi_period
            (((diffV close).map (fun d => match d with
              | some x => if 0 < x then x else 0
              | none => 0)).map some)).zipWith divV
          ((rollingMeanV rsi_period
            (((diffV close).map (fun d => match d with
              | some x => if x < 0 then -x else 0
              | none => 0)).map some)).map
            (fun v => addV v (some (1 / 10 ^ 9)))) |>.map
          (fun r => subV (some 100) (divV (some 100) (addV (some 1) r))))
          t) (some 60) then -1
    else if belowLowerBand (getV (rollingMeanV bb_period close) t)
        (getV (rollingVarV bb_period close) t) c
        && ltV (getV ((rollingMeanV rsi_period
            (((diffV close).map (fun d => match d with
              | some x => if 0 < x then x else 0
              | none => 0)).map some)).zipWith divV
          ((rollingMeanV rsi_period
            (((diffV close).map (fun d => match d with
              | some x => if x < 0 then -x else 0
              | none => 0)).map some)).map
            (fun v => addV v (some (1 / 10 ^ 9)))) |>.map
          (fun r => subV (some 100) (divV (some 100) (addV (some 1) r))))
          t) (some 40) then 1
    else 0
  | none => 0

/-- `RsiBollingerStrategy.generate_signals` as a heap program: copy, then
column writes (`RSI`, `BB_Mid`, `BB_Upper`, `BB_Lower`, `signal`) on the
copy.  Band columns store `mid ± 2 * sqrt(var)` via `Rat.sqrt`; the signal
column uses the exact squared-form masks. -/
def generate_signalsH (rsi_period bb_period : ℕ) (h : Heap)
    (price_data : ℕ) : Heap × ℕ :=
  let a := allocF h (readF h price_data)
  let d := a.2
  let close := getColF (readF a.1 d) "close"
  let h1 := setColH a.1 d "RSI"
    (((rollingMeanV rsi_period (((diffV close).map (fun dd => match dd with
        | some x => if 0 < x then x else 0
        | none => 0)).map some)).zipWith divV
      ((rollingMeanV rsi_period (((diffV close).map (fun dd => match dd with
        | some x => if x < 0 then -x else 0
        | none => 0)).map some)).map
        (fun v => addV v (some (1 / 10 ^ 9))))).map
      (fun r => subV (some 100) (divV (some 100) (addV (some 1) r))))
  let h2 := setColH h1 d "BB_Mid" (rollingMeanV bb_period close)
  let h3 := setColH h2 d "BB_Upper"
    (List.zipWith (fun m v => addV m (mulV (some 2) (Option.map Rat.sqrt v)))
      (rollingMeanV bb_period close) (rollingVarV bb_period close))
  let h4 := setColH h3 d "BB_Lower"
    (List.zipWith (fun m v => subV m (mulV (some 2) (Option.map Rat.sqrt v)))
      (rollingMeanV bb_period close) (rollingVarV bb_period close))
  let h5 := setColH h4 d "signal"
    ((List.range close.length).map
      (fun t => some (signalCellV rsi_period bb_period close t)))
  (h5, d)

/-- `RsiBollingerStrategy.run_backtest` as a heap program: on the
short-circuit path one balance write, otherwise the signal shift, slippage,
return, cost and balance writes — all on the copied frame. -/
def run_backtestH (rsi_period bb_period : ℕ)
    (initial_balance transaction_cost slippage_percent : ℚ)
    (execution_lag : ℕ) (h : Heap) (price_data : ℕ) : Heap × ℕ :=
  let g := generate_signalsH rsi_period bb_period h price_data
  let d := g.2
  if sumV (getColF (readF g.1 d) "signal") = 0 then
    let n := (getColF (readF g.1 d) "close").length
    (setColH g.1 d "balance" (List.replicate n (some initial_balance)), d)
  else
    let h1 := setColH g.1 d "signal"
      (shiftV execution_lag (getColF (readF g.1 d) "signal"))
    let sig := getColF (readF h1 d) "signal"
    let h2 := setColH h1 d "price_with_slippage"
      (List.zipWith (fun c s =>
          mulV c (addV (some 1) (mulV (some slippage_percent) s)))
        (getColF (readF h1 d) "close") sig)
    let pre := List.zipWith mulV (shiftV 1 sig)
      (pctChangeV (getColF (readF h2 d) "price_with_slippage"))
    let h3 := setColH h2 d "return_with_slippage" pre
    let h4 := setColH h3 d "return_with_slippage"
      (List.zipWith (fun s r =>
          if neZeroV s then subV r (some transaction_cost) else r)
        sig (getColF (readF h3 d) "return_with_slippage"))
    let h5 := setColH h4 d "balance"
      ((cumprodV ((getColF (readF h4 d) "return_with_slippage").map
          (fun v => some (1 + v.getD 0)))).map (mulV (some initial_balance)))
    (h5, d)

end RsiBollingerStrategy

namespace VWAPReversionStrategy

/-- `VWAPReversionStrategy._calculate_vwap` as a heap program: `data.copy()`
then four column writes on the copy. -/
def calculate_vwapH (h : Heap) (data : ℕ) : Heap × ℕ :=
  let a := allocF h (readF h data)
  let d := a.2
  let h1 := setColH a.1 d "tpv"
    (List.zipWith mulV (getColF (readF a.1 d) "close")
      (getColF (readF a.1 d) "volume"))
  let h2 := setColH h1 d "cum_tpv" (cumsumV (getColF (readF h1 d) "tpv"))
  let h3 := setColH h2 d "cum_volume"
    (cumsumV (getColF (readF h2 d) "volume"))
  let h4 := setColH h3 d "vwap"
    (List.zipWith divV (getColF (readF h3 d) "cum_tpv")
      (getColF (readF h3 d) "cum_volume"))
  (h4, d)

/-- The raw VWAP signal cell over stored float columns. -/
def rawSignalCellV (dev dt : List V) (t : ℕ) : ℚ :=
  if gtV (getV dev t) (getV dt t) then -1
  else if ltV (getV dev t) (negV (getV dt t)) then 1
  else 0

/-- `VWAPReversionStrategy.generate_signals` as a heap program: it hands
`self.price_data` to `_calculate_vwap` (which copies it) and then writes the
deviation, volatility, threshold and signal columns on the copy. -/
def generate_signalsH (threshold : ℚ) (h : Heap) (price_data : ℕ) : Heap × ℕ :=
  let g := calculate_vwapH h price_data
  let d := g.2
  let h1 := setColH g.1 d "deviation"
    (List.zipWith (fun c w => divV (subV c w) w)
      (getColF (readF g.1 d) "close") (getColF (readF g.1 d) "vwap"))
  let h2 := setColH h1 d "volatility"
    ((rollingVarV 14 (getColF (readF h1 d) "close")).map
      (Option.map Rat.sqrt))
  let h3 := setColH h2 d "dynamic_threshold"
    ((getColF (readF h2 d) "volatility").map (fun v =>
      mulV (some threshold)
        (divV v (meanV (getColF (readF h2 d) "volatility")))))
  let h4 := setColH h3 d "signal"
    ((List.range (getColF (readF h3 d) "close").length).map (fun t =>
      some (rawSignalCellV (getColF (readF h3 d) "deviation")
        (getColF (readF h3 d) "dynamic_threshold") t)))
  let h5 := setColH h4 d "signal"
    (shiftV 1 (getColF (readF h4 d) "signal"))
  (h5, d)

/-- `VWAPReversionStrategy.run_backtest` as a heap program: return, strategy
return, cost and balance writes on the copied frame. -/
def run_backtestH (threshold : ℚ)
    (initial_balance transaction_cost : ℚ) (h : Heap)
    (price_data : ℕ) : Heap × ℕ :=
  let g := generate_signalsH threshold h price_data
  let d := g.2
  let h1 := setColH g.1 d "return"
    (pctChangeV (getColF (readF g.1 d) "close"))
  let h2 := setColH h1 d "strategy_return"
    (List.zipWith mulV (getColF (readF h1 d) "signal")
      (getColF (readF h1 d) "return"))
  let h3 := setColH h2 d "strategy_return"
    (List.zipWith (fun s r =>
        if neZeroV s then subV r (some transaction_cost) else r)
      (getColF (readF h2 d) "signal")
      (getColF (readF h2 d) "strategy_return"))
  let h4 := setColH h3 d "balance"
    ((cumprodV ((getColF (readF h3 d) "strategy_return").map
        (addV (some 1)))).map (mulV (some initial_balance)))
  (h4, d)

end VWAPReversionStrategy

/-! ## Helper lemmas on the series combinators -/

theorem getV_eq (xs : List V) (t : ℕ) : getV xs t = xs[t]?.getD none :=
  List.getD_eq_getElem?_getD xs t none

theorem getV_of_le {xs : List V} {t : ℕ} (h : xs.length ≤ t) : getV xs t = none := by
  rw [getV_eq, List.getElem?_eq_none h]; rfl

theorem getV_tab (f : ℕ → V) {n t : ℕ} (h : t < n) :
    getV ((List.range n).map f) t = f t := by
  rw [getV_eq, List.getElem?_map, List.getElem?_range h]; rfl

theorem getV_zipWith (f : V → V → V) {xs ys : List V} {t : ℕ}
    (hx : t < xs.length) (hy : t < ys.length) :
    getV (List.zipWith f xs ys) t = f (getV xs t) (getV ys t) := by
  rw [getV_eq, List.getElem?_zipWith, List.getElem?_eq_getElem hx,
    List.getElem?_eq_getElem hy]
  rw [getV_eq, List.getElem?_eq_getElem hx, getV_eq, List.getElem?_eq_getElem hy]
  rfl

theorem getV_map (f : V → V) {xs : List V} {t : ℕ} (h : t < xs.length) :
    getV (xs.map f) t = f (getV xs t) := by
  rw [getV_eq, List.getElem?_map, List.getElem?_eq_getElem h, getV_eq,
    List.getElem?_eq_getElem h]
  rfl

theorem getV_map_some {xs : List ℚ} {t : ℕ} (h : t < xs.length) :
    getV (xs.map some) t = some (xs.getD t 0) := by
  rw [getV_eq, List.getElem?_map, List.getElem?_eq_getElem h,
    List.getD_eq_getElem?_getD, List.getElem?_eq_getElem h]
  rfl

theorem getV_shiftV (k : ℕ) (xs : List V) {t : ℕ} (h : t < xs.length) :
    getV (shiftV k xs) t = if t < k then none else getV xs (t - k) :=
  getV_tab _ h

theorem getV_diffV (xs : List V) {t : ℕ} (h : t < xs.length) :
    getV (diffV xs) t =
      if t = 0 then none else subV (getV xs t) (getV xs (t - 1)) :=
  getV_tab _ h

theorem getV_pctChangeV (xs : List V) {t : ℕ} (h : t < xs.length) :
    getV (pctChangeV xs) t =
      if t = 0 then none
      else divV (subV (getV xs t) (getV xs (t - 1))) (getV xs (t - 1)) :=
  getV_tab _ h

theorem getV_cumprodV (xs : List V) {t : ℕ} (h : t < xs.length) :
    getV (cumprodV xs) t =
      if (getV xs t).isSome then some (((xs.take (t + 1)).filterMap id).prod)
      else none :=
  getV_tab _ h

theorem getV_cummaxV (xs : List V) {t : ℕ} (h : t < xs.length) :
    getV (cummaxV xs) t =
      if (getV xs t).isSome then ((xs.take (t + 1)).filterMap id).max?
      else none :=
  getV_tab _ h

theorem filterMap_id_map_some (l : List ℚ) : (l.map some).filterMap id = l := by
  simp

theorem getV_cumprod_map_some (fl : List ℚ) {t : ℕ} (h : t < fl.length) :
    getV (cumprodV (fl.map some)) t = some ((fl.take (t + 1)).prod) := by
  have h' : t < (fl.map some).length := by simpa using h
  rw [getV_cumprodV _ h', getV_map_some h]
  simp [← List.map_take, filterMap_id_map_some]

/-- Length lemmas: every column operation preserves the series length. -/
theorem length_shiftV (k : ℕ) (xs : List V) : (shiftV k xs).length = xs.length := by
  simp [shiftV]

theorem length_diffV (xs : List V) : (diffV xs).length = xs.length := by
  simp [diffV]

theorem length_pctChangeV (xs : List V) : (pctChangeV xs).length = xs.length := by
  simp [pctChangeV]

theorem length_rollingMeanV (w : ℕ) (xs : List V) :
    (rollingMeanV w xs).length = xs.length := by simp [rollingMeanV]

theorem length_rollingVarV (w : ℕ) (xs : List V) :
    (rollingVarV w xs).length = xs.length := by simp [rollingVarV]

theorem length_cumprodV (xs : List V) : (cumprodV xs).length = xs.length := by
  simp [cumprodV]

theorem length_cummaxV (xs : List V) : (cummaxV xs).length = xs.length := by
  simp [cummaxV]

theorem length_cumsumQ (xs : List ℚ) : (cumsumQ xs).length = xs.length := by
  simp [cumsumQ]

theorem getD_map_toQ (g : V → ℚ) {xs : List V} {t : ℕ} (h : t < xs.length) :
    (xs.map g).getD t 0 = g (getV xs t) := by
  rw [List.getD_eq_getElem?_getD, List.getElem?_map, List.getElem?_eq_getElem h,
    getV_eq, List.getElem?_eq_getElem h]
  rfl

theorem prod_take_succ_getD (l : List ℚ) {t : ℕ} (h : t < l.length) :
    (l.take (t + 1)).prod = (l.take t).prod * l.getD t 0 := by
  rw [List.prod_take_succ l t h]
  congr 1
  rw [List.getD_eq_getElem?_getD, List.getElem?_eq_getElem h]
  rfl

/-! ## Length preservation through the three backtest pipelines -/

theorem sma_length_generate_signals (short long : ℕ)
    (closes : List ℚ) :
    (SmaCrossoverStrategy.generate_signals short long closes).length =
      closes.length := by
  simp [SmaCrossoverStrategy.generate_signals, length_diffV,
    SmaCrossoverStrategy.rawPosition]

theorem sma_length_strategy_return (short long : ℕ)
    (closes : List ℚ) :
    (SmaCrossoverStrategy.strategy_return short long closes).length =
      closes.length := by
  simp [SmaCrossoverStrategy.strategy_return, List.length_zipWith, length_shiftV,
    sma_length_generate_signals, length_pctChangeV]

theorem sma_length_run_backtest (short long : ℕ)
    (closes : List ℚ) (initial_balance : ℚ) :
    (SmaCrossoverStrategy.run_backtest short long closes initial_balance).length =
      closes.length := by
  simp [SmaCrossoverStrategy.run_backtest, length_cumprodV,
    sma_length_strategy_return]

theorem rsi_length_generate_signals (rp bp : ℕ)
    (closes : List ℚ) :
    (RsiBollingerStrategy.generate_signals rp bp closes).length =
      closes.length := by
  simp [RsiBollingerStrategy.generate_signals]

theorem RsiBollingerStrategy.length_effectiveSignal (rp bp : ℕ)
    (closes : List ℚ) (lag : ℕ) :
    (RsiBollingerStrategy.effectiveSignal rp bp closes lag).length =
      closes.length := by
  simp [RsiBollingerStrategy.effectiveSignal, length_shiftV,
    rsi_length_generate_signals]

theorem RsiBollingerStrategy.length_price_with_slippage (rp bp : ℕ)
    (closes : List ℚ) (slip : ℚ) (lag : ℕ) :
    (RsiBollingerStrategy.price_with_slippage rp bp closes slip lag).length =
      closes.length := by
  simp [RsiBollingerStrategy.price_with_slippage, List.length_zipWith,
    RsiBollingerStrategy.length_effectiveSignal]

theorem rsi_length_preCostReturn (rp bp : ℕ)
    (closes : List ℚ) (slip : ℚ) (lag : ℕ) :
    (RsiBollingerStrategy.preCostReturn rp bp closes slip lag).length =
      closes.length := by
  simp [RsiBollingerStrategy.preCostReturn, List.length_zipWith, length_shiftV,
    RsiBollingerStrategy.length_effectiveSignal, length_pctChangeV,
    RsiBollingerStrategy.length_price_with_slippage]

theorem RsiBollingerStrategy.length_return_with_slippage (rp bp : ℕ)
    (closes : List ℚ) (cost slip : ℚ) (lag : ℕ) :
    (RsiBollingerStrategy.return_with_slippage rp bp closes cost slip lag).length =
      closes.length := by
  simp [RsiBollingerStrategy.return_with_slippage, List.length_zipWith,
    RsiBollingerStrategy.length_effectiveSignal,
    rsi_length_preCostReturn]

theorem RsiBollingerStrategy.length_fillnaFactor (rp bp : ℕ)
    (closes : List ℚ) (cost slip : ℚ) (lag : ℕ) :
    (RsiBollingerStrategy.fillnaFactor rp bp closes cost slip lag).length =
      closes.length := by
  simp [RsiBollingerStrategy.fillnaFactor,
    RsiBollingerStrategy.length_return_with_slippage]

theorem RsiBollingerStrategy.length_tradingBalance (rp bp : ℕ)
    (closes : List ℚ) (init cost slip : ℚ) (lag : ℕ) :
    (RsiBollingerStrategy.tradingBalance rp bp closes init cost slip lag).length =
      closes.length := by
  simp [RsiBollingerStrategy.tradingBalance, length_cumprodV,
    RsiBollingerStrategy.length_fillnaFactor]

theorem RsiBollingerStrategy.length_balance (rp bp : ℕ) (closes : List ℚ)
    (init cost slip : ℚ) (lag : ℕ) :
    ((RsiBollingerStrategy.run_backtest rp bp closes init cost slip lag).balance).length =
      closes.length := by
  unfold RsiBollingerStrategy.run_backtest
  by_cases hs : (RsiBollingerStrategy.generate_signals rp bp closes).sum = 0
  · simp [hs]
  · simp [hs, RsiBollingerStrategy.length_tradingBalance]

theorem VWAPReversionStrategy.length_vwap (bars : List Bar) :
    (VWAPReversionStrategy.vwap bars).length = bars.length := by
  simp [VWAPReversionStrategy.vwap, List.length_zipWith, length_cumsumQ, volumeCol]

theorem VWAPReversionStrategy.length_deviation (bars : List Bar) :
    (VWAPReversionStrategy.deviation bars).length = bars.length := by
  simp [VWAPReversionStrategy.deviation, List.length_zipWith,
    VWAPReversionStrategy.length_vwap, closeCol]

theorem vwap_length_generate_signals (θ : ℚ) (bars : List Bar) :
    (VWAPReversionStrategy.generate_signals θ bars).length = bars.length := by
  simp [VWAPReversionStrategy.generate_signals, length_shiftV,
    VWAPReversionStrategy.rawSignal]

theorem VWAPReversionStrategy.length_barReturn (bars : List Bar) :
    (VWAPReversionStrategy.barReturn bars).length = bars.length := by
  simp [VWAPReversionStrategy.barReturn, length_pctChangeV, closeCol]

theorem vwap_length_preCostReturn (θ : ℚ) (bars : List Bar) :
    (VWAPReversionStrategy.preCostReturn θ bars).length = bars.length := by
  simp [VWAPReversionStrategy.preCostReturn, List.length_zipWith,
    vwap_length_generate_signals,
    VWAPReversionStrategy.length_barReturn]

theorem vwap_length_strategy_return (θ : ℚ) (bars : List Bar)
    (cost : ℚ) :
    (VWAPReversionStrategy.strategy_return θ bars cost).length = bars.length := by
  simp [VWAPReversionStrategy.strategy_return, List.length_zipWith,
    vwap_length_generate_signals,
    vwap_length_preCostReturn]

theorem vwap_length_run_backtest (θ : ℚ) (bars : List Bar)
    (init cost : ℚ) :
    (VWAPReversionStrategy.run_backtest θ bars init cost).length =
      bars.length := by
  simp [VWAPReversionStrategy.run_backtest, length_cumprodV,
    vwap_length_strategy_return]

theorem mask_none (s : V) (c : ℚ) :
    (if neZeroV s then subV none (some c) else none) = none := by
  cases neZeroV s <;> rfl

/-- The SMA balance cell at index 0 is NaN: `strategy_return[0]` multiplies
the shifted signal (NaN at 0) into `pct_change` (NaN at 0), and the cumprod
keeps NaN cells NaN. -/
theorem sma_balance_zero (short long : ℕ) (closes : List ℚ)
    (init : ℚ) (h : closes ≠ []) :
    getV (SmaCrossoverStrategy.run_backtest short long closes init) 0 = none := by
  have hn : 0 < closes.length := List.length_pos.mpr h
  have hsr0 : getV (SmaCrossoverStrategy.strategy_return short long closes) 0 = none := by
    unfold SmaCrossoverStrategy.strategy_return
    rw [getV_zipWith mulV
      (by rw [length_shiftV, sma_length_generate_signals]; exact hn)
      (by rw [length_pctChangeV, List.length_map]; exact hn)]
    rw [getV_shiftV 1 _
      (by rw [sma_length_generate_signals]; exact hn)]
    rfl
  unfold SmaCrossoverStrategy.run_backtest
  rw [getV_map _ (by
    rw [length_cumprodV, List.length_map,
      sma_length_strategy_return]; exact hn)]
  rw [getV_cumprodV _ (by
    rw [List.length_map, sma_length_strategy_return]; exact hn)]
  rw [getV_map _ (by
    rw [sma_length_strategy_return]; exact hn)]
  rw [hsr0]
  rfl

/-- The VWAP balance cell at index 0 is NaN: `return[0]` is NaN
(`pct_change` at 0) and neither the cost subtraction nor the cumprod
recovers it. -/
theorem vwap_balance_zero (θ : ℚ) (bars : List Bar)
    (init cost : ℚ) (h : bars ≠ []) :
    getV (VWAPReversionStrategy.run_backtest θ bars init cost) 0 = none := by
  have hn : 0 < bars.length := List.length_pos.mpr h
  have hpre : getV (VWAPReversionStrategy.preCostReturn θ bars) 0 = none := by
    unfold VWAPReversionStrategy.preCostReturn
    rw [getV_zipWith mulV
      (by rw [vwap_length_generate_signals]; exact hn)
      (by rw [VWAPReversionStrategy.length_barReturn]; exact hn)]
    unfold VWAPReversionStrategy.barReturn
    rw [getV_pctChangeV _ (by simpa [closeCol] using hn)]
    simp [mulV]
  have hsr : getV (VWAPReversionStrategy.strategy_return θ bars cost) 0 = none := by
    unfold VWAPReversionStrategy.strategy_return
    rw [getV_zipWith _
      (by rw [vwap_length_generate_signals]; exact hn)
      (by rw [vwap_length_preCostReturn]; exact hn)]
    rw [hpre]
    exact mask_none _ _
  unfold VWAPReversionStrategy.run_backtest
  rw [getV_map _ (by
    rw [length_cumprodV, List.length_map,
      vwap_length_strategy_return]; exact hn)]
  rw [getV_cumprodV _ (by
    rw [List.length_map, vwap_length_strategy_return]; exact hn)]
  rw [getV_map _ (by
    rw [vwap_length_strategy_return]; exact hn)]
  rw [hsr]
  rfl

/-- The Rsi/Bollinger `return_with_slippage` cell at index 0 is NaN on the
non-short-circuit path (the doubly shifted signal is NaN there). -/
theorem RsiBollingerStrategy.rws_zero (rp bp : ℕ) (closes : List ℚ)
    (cost slip : ℚ) (lag : ℕ) (h : closes ≠ []) :
    getV (RsiBollingerStrategy.return_with_slippage rp bp closes cost slip lag) 0 =
      none := by
  have hn : 0 < closes.length := List.length_pos.mpr h
  have hpre : getV (RsiBollingerStrategy.preCostReturn rp bp closes slip lag) 0 = none := by
    unfold RsiBollingerStrategy.preCostReturn
    rw [getV_zipWith mulV
      (by rw [length_shiftV, RsiBollingerStrategy.length_effectiveSignal]; exact hn)
      (by rw [length_pctChangeV, RsiBollingerStrategy.length_price_with_slippage]; exact hn)]
    rw [getV_shiftV 1 _
      (by rw [RsiBollingerStrategy.length_effectiveSignal]; exact hn)]
    rfl
  unfold RsiBollingerStrategy.return_with_slippage
  rw [getV_zipWith _
    (by rw [RsiBollingerStrategy.length_effectiveSignal]; exact hn)
    (by rw [rsi_length_preCostReturn]; exact hn)]
  rw [hpre]
  exact mask_none _ _

/-- The Rsi/Bollinger balance cell at index 0 equals the initial balance on
both paths of `run_backtest` (fillna turns the NaN return at 0 into a factor
of 1). -/
theorem rsi_balance_zero (rp bp : ℕ) (closes : List ℚ)
    (init cost slip : ℚ) (lag : ℕ) (h : closes ≠ []) :
    getV ((RsiBollingerStrategy.run_backtest rp bp closes init cost slip lag).balance) 0 =
      some init := by
  have hn : 0 < closes.length := List.length_pos.mpr h
  unfold RsiBollingerStrategy.run_backtest
  by_cases hs : (RsiBollingerStrategy.generate_signals rp bp closes).sum = 0
  · simp only [hs, if_true]
    rw [getV_eq, List.getElem?_replicate, if_pos hn]
    rfl
  · simp only [hs, if_false]
    have hlf : 0 < (RsiBollingerStrategy.fillnaFactor rp bp closes cost slip lag).length := by
      rw [RsiBollingerStrategy.length_fillnaFactor]; exact hn
    unfold RsiBollingerStrategy.tradingBalance
    rw [getV_map _ (by rw [length_cumprodV, List.length_map]; exact hlf)]
    rw [getV_cumprod_map_some _ hlf]
    have h1 : (RsiBollingerStrategy.fillnaFactor rp bp closes cost slip lag).take 1 =
        [(RsiBollingerStrategy.fillnaFactor rp bp closes cost slip lag).getD 0 0] := by
      cases hfl : RsiBollingerStrategy.fillnaFactor rp bp closes cost slip lag with
      | nil => rw [hfl] at hlf; simp at hlf
      | cons a l => simp
    rw [h1]
    unfold RsiBollingerStrategy.fillnaFactor
    rw [getD_map_toQ _ (by rw [RsiBollingerStrategy.length_return_with_slippage]; exact hn)]
    rw [RsiBollingerStrategy.rws_zero rp bp closes cost slip lag h]
    simp [mulV]

/-! ## Claim C1 -/

/-- Claim C1 (amended).  For every non-empty input series and every strategy
variant, the `run_backtest` balance column has the same length as the input
series.  The balance cell at index 0 equals `initial_balance` for
`RsiBollingerStrategy` (on both of its paths), but for
`SmaCrossoverStrategy` and `VWAPReversionStrategy` it is NaN — not
`initial_balance` — because their `strategy_return` at index 0 is NaN and
neither applies `fillna` before compounding. -/
theorem C1_theorem (short long rp bp lag : ℕ) (closes : List ℚ)
    (bars : List Bar) (init cost slip θ vinit vcost : ℚ)
    (hc : closes ≠ []) (hb : bars ≠ []) :
    ((SmaCrossoverStrategy.run_backtest short long closes init).length =
        closes.length ∧
      getV (SmaCrossoverStrategy.run_backtest short long closes init) 0 = none) ∧
    (((RsiBollingerStrategy.run_backtest rp bp closes init cost slip lag).balance).length =
        closes.length ∧
      getV ((RsiBollingerStrategy.run_backtest rp bp closes init cost slip
        lag).balance) 0 = some init) ∧
    ((VWAPReversionStrategy.run_backtest θ bars vinit vcost).length =
        bars.length ∧
      getV (VWAPReversionStrategy.run_backtest θ bars vinit vcost) 0 = none) :=
  ⟨⟨sma_length_run_backtest short long closes init,
      sma_balance_zero short long closes init hc⟩,
    ⟨RsiBollingerStrategy.length_balance rp bp closes init cost slip lag,
      rsi_balance_zero rp bp closes init cost slip lag hc⟩,
    ⟨vwap_length_run_backtest θ bars vinit vcost,
      vwap_balance_zero θ bars vinit vcost hb⟩⟩

/-- Claim C1 counterexample: on the one-bar series `[100]` with the default
windows and `initial_balance = 10000`, the SMA balance at index 0 is NaN,
not `initial_balance` as the claim states for every variant. -/
theorem C1_counterexample :
    getV (SmaCrossoverStrategy.run_backtest 10 50 [100] 10000) 0 ≠
      some 10000 := by decide

/-- Claim C1 witness: the amended statement evaluated on concrete series. -/
theorem C1_witness :
    ([100, 101] : List ℚ) ≠ [] ∧ oneBar ≠ [] ∧
    (((SmaCrossoverStrategy.run_backtest 10 50 [100, 101] 10000).length =
        ([100, 101] : List ℚ).length ∧
      getV (SmaCrossoverStrategy.run_backtest 10 50 [100, 101] 10000) 0 = none) ∧
    (((RsiBollingerStrategy.run_backtest 14 20 [100, 101] 10000 (1 / 10 ^ 4)
          (1 / 10 ^ 4) 1).balance).length = ([100, 101] : List ℚ).length ∧
      getV ((RsiBollingerStrategy.run_backtest 14 20 [100, 101] 10000
        (1 / 10 ^ 4) (1 / 10 ^ 4) 1).balance) 0 = some 10000) ∧
    ((VWAPReversionStrategy.run_backtest (1 / 50) oneBar 10000 (1 / 10 ^ 3)).length =
        oneBar.length ∧
      getV (VWAPReversionStrategy.run_backtest (1 / 50) oneBar 10000
        (1 / 10 ^ 3)) 0 = none)) :=
  ⟨by decide, by decide,
    C1_theorem 10 50 14 20 1 [100, 101] oneBar 10000 (1 / 10 ^ 4) (1 / 10 ^ 4)
      (1 / 50) 10000 (1 / 10 ^ 3) (by decide) (by decide)⟩

theorem getD_tab (f : ℕ → ℚ) {n t : ℕ} (h : t < n) :
    ((List.range n).map f).getD t 0 = f t := by
  rw [List.getD_eq_getElem?_getD, List.getElem?_map, List.getElem?_range h]
  rfl

/-! ## Claim C6 -/

/-- Claim C6 (confirmed).  `RsiBollingerStrategy.run_backtest` takes the flat
short-circuit path — balance constantly `initial_balance`, independent of
`transaction_cost`, `slippage_percent` and `execution_lag` — exactly when
the arithmetic sum of the generated signal series is 0, which covers every
series whose +1 and -1 signals cancel, not only the all-zero one. -/
theorem C6_theorem (rp bp lag : ℕ) (closes : List ℚ) (init cost slip : ℚ) :
    ((RsiBollingerStrategy.run_backtest rp bp closes init cost slip lag).flat =
        true ↔
      (RsiBollingerStrategy.generate_signals rp bp closes).sum = 0) ∧
    ((RsiBollingerStrategy.generate_signals rp bp closes).sum = 0 →
      (RsiBollingerStrategy.run_backtest rp bp closes init cost slip lag).balance =
        List.replicate closes.length (some init)) := by
  unfold RsiBollingerStrategy.run_backtest
  by_cases hs : (RsiBollingerStrategy.generate_signals rp bp closes).sum = 0
  · simp [hs]
  · simp [hs]

/-- Claim C6 witness: on `cancelCloses` the strategy emits a +1 (bar 5) and
a -1 (bar 10) that cancel; the sum is 0 and the backtest short-circuits to a
constant balance even with a huge 0.5 transaction cost. -/
theorem C6_witness :
    (RsiBollingerStrategy.generate_signals 2 6 cancelCloses).sum = 0 ∧
    (RsiBollingerStrategy.generate_signals 2 6 cancelCloses).getD 5 0 = 1 ∧
    (RsiBollingerStrategy.generate_signals 2 6 cancelCloses).getD 10 0 = -1 ∧
    (RsiBollingerStrategy.run_backtest 2 6 cancelCloses 10000 (1 / 2)
        (1 / 10 ^ 4) 1).balance =
      List.replicate cancelCloses.length (some 10000) :=
  ⟨by decide, by decide, by decide,
    (C6_theorem 2 6 1 cancelCloses 10000 (1 / 2) (1 / 10 ^ 4)).2 (by decide)⟩

/-! ## Claim C8 -/

/-- Claim C8 (confirmed).  `SmaCrossoverStrategy.generate_signals` computes a
raw position that is 1 when the short rolling mean strictly exceeds the long
one and 0 otherwise, and emits as signal the discrete change of that raw
position: NaN at index 0, and at `t ≥ 1` the difference
`position[t] - position[t-1]`, which is +1 exactly on entry (0 → 1), -1
exactly on exit (1 → 0) and 0 exactly when the position is unchanged — a
transition signal, not a persistent position. -/
theorem C8_theorem (short long : ℕ) (closes : List ℚ) (t : ℕ)
    (h1 : 1 ≤ t) (ht : t < closes.length) :
    (∀ s, s < closes.length →
      ((SmaCrossoverStrategy.rawPosition short long closes).getD s 0 =
          (if gtV (getV (rollingMeanV short (closes.map some)) s)
              (getV (rollingMeanV long (closes.map some)) s) then 1 else 0) ∧
        ((SmaCrossoverStrategy.rawPosition short long closes).getD s 0 = 0 ∨
          (SmaCrossoverStrategy.rawPosition short long closes).getD s 0 = 1))) ∧
    getV (SmaCrossoverStrategy.generate_signals short long closes) 0 = none ∧
    getV (SmaCrossoverStrategy.generate_signals short long closes) t =
      some ((SmaCrossoverStrategy.rawPosition short long closes).getD t 0 -
        (SmaCrossoverStrategy.rawPosition short long closes).getD (t - 1) 0) ∧
    (getV (SmaCrossoverStrategy.generate_signals short long closes) t = some 1 ↔
      (SmaCrossoverStrategy.rawPosition short long closes).getD t 0 = 1 ∧
        (SmaCrossoverStrategy.rawPosition short long closes).getD (t - 1) 0 = 0) ∧
    (getV (SmaCrossoverStrategy.generate_signals short long closes) t = some (-1) ↔
      (SmaCrossoverStrategy.rawPosition short long closes).getD t 0 = 0 ∧
        (SmaCrossoverStrategy.rawPosition short long closes).getD (t - 1) 0 = 1) ∧
    (getV (SmaCrossoverStrategy.generate_signals short long closes) t = some 0 ↔
      (SmaCrossoverStrategy.rawPosition short long closes).getD t 0 =
        (SmaCrossoverStrategy.rawPosition short long closes).getD (t - 1) 0) := by
  have h0 : (0 : ℕ) < closes.length := lt_of_le_of_lt (Nat.zero_le t) ht
  have ht1 : t - 1 < closes.length := lt_of_le_of_lt (Nat.sub_le t 1) ht
  have hlen : ∀ s, s < closes.length →
      s < ((SmaCrossoverStrategy.rawPosition short long closes).map some).length := by
    intro s hs
    simpa [SmaCrossoverStrategy.rawPosition] using hs
  have hpos : ∀ s, s < closes.length →
      (SmaCrossoverStrategy.rawPosition short long closes).getD s 0 =
        (if gtV (getV (rollingMeanV short (closes.map some)) s)
            (getV (rollingMeanV long (closes.map some)) s) then 1 else 0) :=
    fun s hs => getD_tab _ hs
  have hsig : getV (SmaCrossoverStrategy.generate_signals short long closes) t =
      some ((SmaCrossoverStrategy.rawPosition short long closes).getD t 0 -
        (SmaCrossoverStrategy.rawPosition short long closes).getD (t - 1) 0) := by
    unfold SmaCrossoverStrategy.generate_signals
    rw [getV_diffV _ (hlen t ht), if_neg (by omega),
      getV_map_some (by simpa [SmaCrossoverStrategy.rawPosition] using ht),
      getV_map_some (by simpa [SmaCrossoverStrategy.rawPosition] using ht1)]
    rfl
  have hsig0 : getV (SmaCrossoverStrategy.generate_signals short long closes) 0 =
      none := by
    unfold SmaCrossoverStrategy.generate_signals
    rw [getV_diffV _ (hlen 0 h0)]
    rfl
  refine ⟨fun s hs => ⟨hpos s hs, ?_⟩, hsig0, hsig, ?_, ?_, ?_⟩
  · rw [hpos s hs]
    by_cases hgt : gtV (getV (rollingMeanV short (closes.map some)) s)
        (getV (rollingMeanV long (closes.map some)) s)
    · simp [hgt]
    · simp [hgt]
  · rw [hsig, hpos t ht, hpos (t - 1) ht1]
    by_cases hgt : gtV (getV (rollingMeanV short (closes.map some)) t)
        (getV (rollingMeanV long (closes.map some)) t) <;>
      by_cases hgl : gtV (getV (rollingMeanV short (closes.map some)) (t - 1))
          (getV (rollingMeanV long (closes.map some)) (t - 1)) <;>
        simp [hgt, hgl] <;> norm_num
  · rw [hsig, hpos t ht, hpos (t - 1) ht1]
    by_cases hgt : gtV (getV (rollingMeanV short (closes.map some)) t)
        (getV (rollingMeanV long (closes.map some)) t) <;>
      by_cases hgl : gtV (getV (rollingMeanV short (closes.map some)) (t - 1))
          (getV (rollingMeanV long (closes.map some)) (t - 1)) <;>
        simp [hgt, hgl] <;> norm_num
  · rw [hsig, hpos t ht, hpos (t - 1) ht1]
    by_cases hgt : gtV (getV (rollingMeanV short (closes.map some)) t)
        (getV (rollingMeanV long (closes.map some)) t) <;>
      by_cases hgl : gtV (getV (rollingMeanV short (closes.map some)) (t - 1))
          (getV (rollingMeanV long (closes.map some)) (t - 1)) <;>
        simp [hgt, hgl] <;> norm_num

/-- Claim C8 witness: on the two-bar series `[1, 2]` with windows 1 and 2 the
crossover fires at bar 1 and the emitted signal is the transition +1. -/
theorem C8_witness :
    1 ≤ 1 ∧ 1 < ([1, 2] : List ℚ).length ∧
    ((∀ s, s < ([1, 2] : List ℚ).length →
      ((SmaCrossoverStrategy.rawPosition 1 2 [1, 2]).getD s 0 =
          (if gtV (getV (rollingMeanV 1 (([1, 2] : List ℚ).map some)) s)
              (getV (rollingMeanV 2 (([1, 2] : List ℚ).map some)) s) then 1
            else 0) ∧
        ((SmaCrossoverStrategy.rawPosition 1 2 [1, 2]).getD s 0 = 0 ∨
          (SmaCrossoverStrategy.rawPosition 1 2 [1, 2]).getD s 0 = 1))) ∧
    getV (SmaCrossoverStrategy.generate_signals 1 2 [1, 2]) 0 = none ∧
    getV (SmaCrossoverStrategy.generate_signals 1 2 [1, 2]) 1 =
      some ((SmaCrossoverStrategy.rawPosition 1 2 [1, 2]).getD 1 0 -
        (SmaCrossoverStrategy.rawPosition 1 2 [1, 2]).getD (1 - 1) 0) ∧
    (getV (SmaCrossoverStrategy.generate_signals 1 2 [1, 2]) 1 = some 1 ↔
      (SmaCrossoverStrategy.rawPosition 1 2 [1, 2]).getD 1 0 = 1 ∧
        (SmaCrossoverStrategy.rawPosition 1 2 [1, 2]).getD (1 - 1) 0 = 0) ∧
    (getV (SmaCrossoverStrategy.generate_signals 1 2 [1, 2]) 1 = some (-1) ↔
      (SmaCrossoverStrategy.rawPosition 1 2 [1, 2]).getD 1 0 = 0 ∧
        (SmaCrossoverStrategy.rawPosition 1 2 [1, 2]).getD (1 - 1) 0 = 1) ∧
    (getV (SmaCrossoverStrategy.generate_signals 1 2 [1, 2]) 1 = some 0 ↔
      (SmaCrossoverStrategy.rawPosition 1 2 [1, 2]).getD 1 0 =
        (SmaCrossoverStrategy.rawPosition 1 2 [1, 2]).getD (1 - 1) 0)) :=
  ⟨by decide, by decide, C8_theorem 1 2 [1, 2] 1 (by decide) (by decide)⟩

theorem getD_mem_of_lt {α : Type} [Inhabited α] {l : List α} {s : ℕ} (d : α)
    (h : s < l.length) : l.getD s d ∈ l := by
  rw [List.getD_eq_getElem?_getD, List.getElem?_eq_getElem h]
  exact List.getElem_mem h

/-- If a factor column is NaN on a prefix of length `k` and constantly 1
afterwards, its skipna cumprod is NaN on the prefix and constantly 1 after. -/
theorem cumprod_prefix_none_then_one {L : List V} {k : ℕ}
    (hL : ∀ s, s < L.length → getV L s = if s < k then none else some 1) :
    ∀ t, t < L.length → getV (cumprodV L) t = if t < k then none else some 1 := by
  intro t ht
  rw [getV_cumprodV _ ht, hL t ht]
  by_cases htk : t < k
  · simp [htk]
  · rw [if_neg htk, if_pos (show ((some (1 : ℚ)).isSome = true) from rfl)]
    congr 1
    apply List.prod_eq_one
    intro x hx
    rcases List.mem_filterMap.mp hx with ⟨cell, hcellmem, hcell⟩
    rcases List.mem_iff_getElem.mp hcellmem with ⟨i, hi, hie⟩
    have hiL : i < L.length := by
      have := hi
      rw [List.length_take] at this
      exact lt_of_lt_of_le this (min_le_right _ _)
    have hgetVi : getV L i = cell := by
      rw [getV_eq, List.getElem?_eq_getElem hiL]
      rw [← List.getElem_take L (h := hi)] at *
      simpa using hie
    have := hL i hiL
    rw [hgetVi] at this
    by_cases hik : i < k
    · rw [if_pos hik] at this
      rw [this] at hcell
      exact absurd hcell (by simp)
    · rw [if_neg hik] at this
      rw [this] at hcell
      simp only [id] at hcell
      exact (Option.some_inj.mp hcell).symm

/-- If every factor up to index `t` is 1, the prefix product is 1. -/
theorem prod_take_ones {fl : List ℚ} {t : ℕ}
    (h : ∀ s, s < fl.length → s ≤ t → fl.getD s 0 = 1) :
    (fl.take (t + 1)).prod = 1 := by
  apply List.prod_eq_one
  intro x hx
  rcases List.mem_iff_getElem.mp hx with ⟨i, hi, hie⟩
  have hil : i < fl.length := by
    have := hi
    rw [List.length_take] at this
    exact lt_of_lt_of_le this (min_le_right _ _)
  have hit : i ≤ t := by
    have := hi
    rw [List.length_take] at this
    have := lt_of_lt_of_le this (min_le_left _ _)
    omega
  have := h i hil hit
  rw [List.getD_eq_getElem?_getD, List.getElem?_eq_getElem hil] at this
  rw [List.getElem_take fl (h := hi)] at hie
  rw [← hie]
  simpa using this

theorem closeCol_pos {bars : List Bar} {s : ℕ}
    (hbpos : ∀ b ∈ bars, 0 < b.close) (h : s < bars.length) :
    ∃ c : ℚ, getV (closeCol bars) s = some c ∧ 0 < c := by
  refine ⟨(bars.get ⟨s, h⟩).close, ?_, hbpos _ (bars.get_mem s h)⟩
  rw [getV_eq, closeCol, List.getElem?_map, List.getElem?_eq_getElem h]
  simp [List.get_eq_getElem]

theorem mapSome_pos {closes : List ℚ} {s : ℕ}
    (hpos : ∀ c ∈ closes, 0 < c) (h : s < closes.length) :
    ∃ c : ℚ, getV (closes.map some) s = some c ∧ 0 < c :=
  ⟨closes.getD s 0, getV_map_some h, hpos _ (getD_mem_of_lt 0 h)⟩

/-- A defined, positive-denominator `pct_change` cell is numeric. -/
theorem pct_defined {xs : List V} {s : ℕ} (hs : 1 ≤ s) (h : s < xs.length)
    {a b : ℚ} (ha : getV xs s = some a) (hb : getV xs (s - 1) = some b)
    (hb0 : b ≠ 0) :
    getV (pctChangeV xs) s = some ((a - b) / b) := by
  rw [getV_pctChangeV _ h, if_neg (by omega), ha, hb]
  simp [divV, subV, hb0]

theorem sma_signal_at {short long : ℕ} {closes : List ℚ}
    {t : ℕ} (h1 : 1 ≤ t) (ht : t < closes.length) :
    getV (SmaCrossoverStrategy.generate_signals short long closes) t =
      some ((SmaCrossoverStrategy.rawPosition short long closes).getD t 0 -
        (SmaCrossoverStrategy.rawPosition short long closes).getD (t - 1) 0) := by
  unfold SmaCrossoverStrategy.generate_signals
  rw [getV_diffV _ (by simpa [SmaCrossoverStrategy.rawPosition] using ht),
    if_neg (by omega),
    getV_map_some (by simpa [SmaCrossoverStrategy.rawPosition] using ht),
    getV_map_some (by
      simpa [SmaCrossoverStrategy.rawPosition] using
        lt_of_le_of_lt (Nat.sub_le t 1) ht)]
  rfl

theorem sma_signal_zero_at {short long : ℕ} {closes : List ℚ}
    (h : noTradeV (SmaCrossoverStrategy.generate_signals short long closes))
    {t : ℕ} (h1 : 1 ≤ t) (ht : t < closes.length) :
    getV (SmaCrossoverStrategy.generate_signals short long closes) t = some 0 := by
  rcases h t (by rw [sma_length_generate_signals]; exact ht) with
    h0 | hnone
  · exact h0
  · rw [sma_signal_at h1 ht] at hnone
    exact absurd hnone (by simp)

theorem sma_factor_char {short long : ℕ} {closes : List ℚ}
    (hpos : ∀ c ∈ closes, 0 < c)
    (hnt : noTradeV (SmaCrossoverStrategy.generate_signals short long closes)) :
    ∀ s, s < ((SmaCrossoverStrategy.strategy_return short long closes).map
        (addV (some 1))).length →
      getV ((SmaCrossoverStrategy.strategy_return short long closes).map
        (addV (some 1))) s = if s < 2 then none else some 1 := by
  intro s hs
  rw [List.length_map, sma_length_strategy_return] at hs
  rw [getV_map _ (by rw [sma_length_strategy_return]; exact hs)]
  have hzip := @getV_zipWith mulV
    (shiftV 1 (SmaCrossoverStrategy.generate_signals short long closes))
    (pctChangeV (closes.map some)) s
    (by rw [length_shiftV, sma_length_generate_signals]; exact hs)
    (by rw [length_pctChangeV, List.length_map]; exact hs)
  have hshift := getV_shiftV 1
    (SmaCrossoverStrategy.generate_signals short long closes) (t := s)
    (by rw [sma_length_generate_signals]; exact hs)
  by_cases hs2 : s < 2
  · rw [if_pos hs2]
    have hs01 : s = 0 ∨ s = 1 := by omega
    rcases hs01 with h0 | h1
    · subst h0
      unfold SmaCrossoverStrategy.strategy_return
      rw [hzip, hshift]
      rfl
    · subst h1
      unfold SmaCrossoverStrategy.strategy_return
      rw [hzip, hshift, if_neg (by omega)]
      have hsig0 : getV (SmaCrossoverStrategy.generate_signals short long closes)
          (1 - 1) = none := by
        unfold SmaCrossoverStrategy.generate_signals
        rw [getV_diffV _ (by
          simpa [SmaCrossoverStrategy.rawPosition] using
            lt_of_le_of_lt (Nat.zero_le 1) hs)]
        rfl
      rw [hsig0]
      rfl
  · rw [if_neg hs2]
    have hs1 : 1 ≤ s := by omega
    unfold SmaCrossoverStrategy.strategy_return
    rw [hzip, hshift, if_neg (by omega)]
    have hsig : getV (SmaCrossoverStrategy.generate_signals short long closes)
        (s - 1) = some 0 :=
      sma_signal_zero_at hnt (by omega)
        (lt_of_le_of_lt (Nat.sub_le s 1) hs)
    rw [hsig]
    rcases mapSome_pos hpos hs with ⟨a, ha, _⟩
    rcases mapSome_pos hpos (lt_of_le_of_lt (Nat.sub_le s 1) hs) with ⟨b, hb, hb0⟩
    rw [pct_defined hs1 (by rw [List.length_map]; exact hs) ha hb (ne_of_gt hb0)]
    show some (1 + 0 * ((a - b) / b)) = some 1
    norm_num

theorem vwap_signal_at {θ : ℚ} {bars : List Bar} {t : ℕ}
    (h1 : 1 ≤ t) (ht : t < bars.length) :
    getV (VWAPReversionStrategy.generate_signals θ bars) t =
      some ((VWAPReversionStrategy.rawSignal θ bars).getD (t - 1) 0) := by
  unfold VWAPReversionStrategy.generate_signals
  rw [getV_shiftV 1 _ (by
    simpa [VWAPReversionStrategy.rawSignal] using ht), if_neg (by omega)]
  exact getV_map_some (by
    simpa [VWAPReversionStrategy.rawSignal] using lt_of_le_of_lt (Nat.sub_le t 1) ht)

theorem vwap_signal_zero_at {θ : ℚ} {bars : List Bar}
    (hnt : noTradeV (VWAPReversionStrategy.generate_signals θ bars))
    {t : ℕ} (h1 : 1 ≤ t) (ht : t < bars.length) :
    getV (VWAPReversionStrategy.generate_signals θ bars) t = some 0 := by
  rcases hnt t (by rw [vwap_length_generate_signals]; exact ht) with
    h0 | hnone
  · exact h0
  · rw [vwap_signal_at h1 ht] at hnone
    exact absurd hnone (by simp)

theorem VWAPReversionStrategy.sr_zero (θ : ℚ) (bars : List Bar) (cost : ℚ)
    (h : bars ≠ []) :
    getV (VWAPReversionStrategy.strategy_return θ bars cost) 0 = none := by
  have hn : 0 < bars.length := List.length_pos.mpr h
  have hpre : getV (VWAPReversionStrategy.preCostReturn θ bars) 0 = none := by
    unfold VWAPReversionStrategy.preCostReturn
    rw [getV_zipWith mulV
      (by rw [vwap_length_generate_signals]; exact hn)
      (by rw [VWAPReversionStrategy.length_barReturn]; exact hn)]
    unfold VWAPReversionStrategy.barReturn
    rw [getV_pctChangeV _ (by simpa [closeCol] using hn)]
    simp [mulV]
  unfold VWAPReversionStrategy.strategy_return
  rw [getV_zipWith _
    (by rw [vwap_length_generate_signals]; exact hn)
    (by rw [vwap_length_preCostReturn]; exact hn)]
  rw [hpre]
  exact mask_none _ _

theorem vwap_factor_char {θ : ℚ} {bars : List Bar} {cost : ℚ}
    (hbpos : ∀ b ∈ bars, 0 < b.close)
    (hnt : noTradeV (VWAPReversionStrategy.generate_signals θ bars)) :
    ∀ s, s < ((VWAPReversionStrategy.strategy_return θ bars cost).map
        (addV (some 1))).length →
      getV ((VWAPReversionStrategy.strategy_return θ bars cost).map
        (addV (some 1))) s = if s < 1 then none else some 1 := by
  intro s hs
  rw [List.length_map, vwap_length_strategy_return] at hs
  rw [getV_map _ (by rw [vwap_length_strategy_return]; exact hs)]
  by_cases hs1 : s < 1
  · rw [if_pos hs1]
    have hs0 : s = 0 := by omega
    subst hs0
    rw [VWAPReversionStrategy.sr_zero θ bars cost (List.length_pos.mp hs)]
    rfl
  · rw [if_neg hs1]
    have h1 : 1 ≤ s := by omega
    have hsig : getV (VWAPReversionStrategy.generate_signals θ bars) s = some 0 :=
      vwap_signal_zero_at hnt h1 hs
    unfold VWAPReversionStrategy.strategy_return
    rw [getV_zipWith _
      (by rw [vwap_length_generate_signals]; exact hs)
      (by rw [vwap_length_preCostReturn]; exact hs)]
    rw [hsig]
    have hpre : getV (VWAPReversionStrategy.preCostReturn θ bars) s = some 0 := by
      unfold VWAPReversionStrategy.preCostReturn
      rw [getV_zipWith mulV
        (by rw [vwap_length_generate_signals]; exact hs)
        (by rw [VWAPReversionStrategy.length_barReturn]; exact hs)]
      rw [hsig]
      rcases closeCol_pos hbpos hs with ⟨a, ha, _⟩
      rcases closeCol_pos hbpos (lt_of_le_of_lt (Nat.sub_le s 1) hs) with ⟨b, hb, hb0⟩
      unfold VWAPReversionStrategy.barReturn
      rw [pct_defined h1 (by simpa [closeCol] using hs) ha hb (ne_of_gt hb0)]
      show some (0 * ((a - b) / b)) = some 0
      norm_num
    rw [hpre]
    simp [neZeroV, addV]

theorem RsiBollingerStrategy.noTrade_sum_zero {rp bp : ℕ} {closes : List ℚ}
    (h : noTradeV ((RsiBollingerStrategy.generate_signals rp bp closes).map some)) :
    (RsiBollingerStrategy.generate_signals rp bp closes).sum = 0 := by
  apply List.sum_eq_zero
  intro x hx
  rcases List.mem_iff_getElem.mp hx with ⟨i, hi, hie⟩
  rcases h i (by simpa using hi) with h0 | hnone
  · rw [getV_map_some hi] at h0
    have : (RsiBollingerStrategy.generate_signals rp bp closes).getD i 0 = 0 :=
      Option.some_inj.mp h0
    rw [List.getD_eq_getElem?_getD, List.getElem?_eq_getElem hi] at this
    rw [← hie]
    simpa using this
  · rw [getV_map_some hi] at hnone
    exact absurd hnone (by simp)

/-! ## Claim C2 -/

/-- Claim C2 (amended).  If the generated signal series carries no trade
(every cell 0 or NaN) then: for `RsiBollingerStrategy` the short-circuit
fires — the no-signal condition is detected (the flat flag / logged warning)
and the balance is constant at `initial_balance`; but for
`SmaCrossoverStrategy` the balance is NaN at indices 0 and 1 and only
`initial_balance` from index 2 on, and for `VWAPReversionStrategy` it is NaN
at index 0 and `initial_balance` afterwards — neither of those variants is
constant at `initial_balance` for every `t`, and neither detects or reports
the condition (their `run_backtest` has no such branch).  Close prices are
assumed positive (so `pct_change` is defined). -/
theorem C2_theorem (short long rp bp lag : ℕ) (closes : List ℚ)
    (bars : List Bar) (init cost slip vinit vcost θ : ℚ)
    (hpos : ∀ c ∈ closes, 0 < c) (hbpos : ∀ b ∈ bars, 0 < b.close) :
    (noTradeV ((RsiBollingerStrategy.generate_signals rp bp closes).map some) →
      (RsiBollingerStrategy.run_backtest rp bp closes init cost slip lag).flat =
          true ∧
        (RsiBollingerStrategy.run_backtest rp bp closes init cost slip
            lag).balance = List.replicate closes.length (some init)) ∧
    (noTradeV (SmaCrossoverStrategy.generate_signals short long closes) →
      ∀ t, t < closes.length →
        getV (SmaCrossoverStrategy.run_backtest short long closes init) t =
          if t < 2 then none else some init) ∧
    (noTradeV (VWAPReversionStrategy.generate_signals θ bars) →
      ∀ t, t < bars.length →
        getV (VWAPReversionStrategy.run_backtest θ bars vinit vcost) t =
          if t < 1 then none else some vinit) := by
  refine ⟨fun hnt => ?_, fun hnt t ht => ?_, fun hnt t ht => ?_⟩
  · have hs := RsiBollingerStrategy.noTrade_sum_zero hnt
    unfold RsiBollingerStrategy.run_backtest
    rw [if_pos hs]
    exact ⟨rfl, rfl⟩
  · have hchar := sma_factor_char hpos hnt
    have hcp := cumprod_prefix_none_then_one hchar t (by
      rw [List.length_map, sma_length_strategy_return]; exact ht)
    unfold SmaCrossoverStrategy.run_backtest
    rw [getV_map _ (by
      rw [length_cumprodV, List.length_map,
        sma_length_strategy_return]; exact ht)]
    rw [hcp]
    by_cases ht2 : t < 2
    · rw [if_pos ht2, if_pos ht2]
      rfl
    · rw [if_neg ht2, if_neg ht2]
      show some (init * 1) = some init
      rw [mul_one]
  · have hchar := @vwap_factor_char θ bars vcost hbpos hnt
    have hcp := cumprod_prefix_none_then_one hchar t (by
      rw [List.length_map, vwap_length_strategy_return]; exact ht)
    unfold VWAPReversionStrategy.run_backtest
    rw [getV_map _ (by
      rw [length_cumprodV, List.length_map,
        vwap_length_strategy_return]; exact ht)]
    rw [hcp]
    by_cases ht1 : t < 1
    · rw [if_pos ht1, if_pos ht1]
      rfl
    · rw [if_neg ht1, if_neg ht1]
      show some (vinit * 1) = some vinit
      rw [mul_one]

/-- Claim C2 counterexample: on the two-bar series `[100, 100]` with windows
1 and 2 the SMA strategy generates no trade signal at all, yet the balance is
`[NaN, NaN]` — not constant at `initial_balance` — and nothing is detected
or reported. -/
theorem C2_counterexample :
    noTradeV (SmaCrossoverStrategy.generate_signals 1 2 [100, 100]) ∧
    getV (SmaCrossoverStrategy.run_backtest 1 2 [100, 100] 10000) 1 ≠
      some 10000 := by
  exact ⟨by decide, by decide⟩

/-- Claim C2 witness: the amended statement evaluated on concrete series. -/
theorem C2_witness :
    (∀ c ∈ ([100, 100, 100] : List ℚ), 0 < c) ∧
    (∀ b ∈ threeBars, 0 < b.close) ∧
    noTradeV ((RsiBollingerStrategy.generate_signals 14 20 [100, 100, 100]).map some) ∧
    noTradeV (SmaCrossoverStrategy.generate_signals 1 2 [100, 100, 100]) ∧
    noTradeV (VWAPReversionStrategy.generate_signals (1 / 50) threeBars) ∧
    ((RsiBollingerStrategy.run_backtest 14 20 [100, 100, 100] 10000 (1 / 10 ^ 4)
        (1 / 10 ^ 4) 1).flat = true ∧
      (RsiBollingerStrategy.run_backtest 14 20 [100, 100, 100] 10000 (1 / 10 ^ 4)
        (1 / 10 ^ 4) 1).balance =
        List.replicate ([100, 100, 100] : List ℚ).length (some 10000)) ∧
    (∀ t, t < ([100, 100, 100] : List ℚ).length →
      getV (SmaCrossoverStrategy.run_backtest 1 2 [100, 100, 100] 10000) t =
        if t < 2 then none else some 10000) ∧
    (∀ t, t < threeBars.length →
      getV (VWAPReversionStrategy.run_backtest (1 / 50) threeBars 10000
        (1 / 10 ^ 3)) t = if t < 1 then none else some 10000) := by
  have hnt1 : noTradeV ((RsiBollingerStrategy.generate_signals 14 20
      [100, 100, 100]).map some) := by decide
  have hnt2 : noTradeV (SmaCrossoverStrategy.generate_signals 1 2
      [100, 100, 100]) := by decide
  have hnt3 : noTradeV (VWAPReversionStrategy.generate_signals (1 / 50)
      threeBars) := by decide
  have hmain := C2_theorem 1 2 14 20 1 [100, 100, 100] threeBars 10000
    (1 / 10 ^ 4) (1 / 10 ^ 4) 10000 (1 / 10 ^ 3) (1 / 50)
    (by decide) (by decide)
  exact ⟨by decide, by decide, hnt1, hnt2, hnt3, hmain.1 hnt1, hmain.2.1 hnt2,
    hmain.2.2 hnt3⟩

/-! ## Claim C3 -/

/-- Claim C3 (amended).  On the non-short-circuit path of
`RsiBollingerStrategy.run_backtest` (signal sum nonzero) and always in
`VWAPReversionStrategy.run_backtest`, the transaction cost is subtracted
from the strategy return at bar `t` exactly when the effective (lagged)
signal at `t` is a nonzero number — on every bar a non-flat position is
held, not only on position changes — and never when it is 0; on the leading
bars where the lagged signal is NaN the return is NaN both before and after
the cost step, so the subtraction has no effect there.  (On the rsi
short-circuit path no cost is ever applied even though nonzero signals may
exist — see the counterexample.) -/
theorem C3_theorem (rp bp lag : ℕ) (closes : List ℚ) (bars : List Bar)
    (init cost slip vcost θ : ℚ) (t : ℕ) :
    (t < closes.length →
      ((getV (RsiBollingerStrategy.effectiveSignal rp bp closes lag) t = some 0 →
          getV (RsiBollingerStrategy.return_with_slippage rp bp closes cost slip
            lag) t = getV (RsiBollingerStrategy.preCostReturn rp bp closes slip
            lag) t) ∧
        (∀ q : ℚ, q ≠ 0 →
          getV (RsiBollingerStrategy.effectiveSignal rp bp closes lag) t = some q →
          getV (RsiBollingerStrategy.return_with_slippage rp bp closes cost slip
            lag) t = subV (getV (RsiBollingerStrategy.preCostReturn rp bp closes
            slip lag) t) (some cost)) ∧
        (getV (RsiBollingerStrategy.effectiveSignal rp bp closes lag) t = none →
          getV (RsiBollingerStrategy.return_with_slippage rp bp closes cost slip
              lag) t = none ∧
            getV (RsiBollingerStrategy.preCostReturn rp bp closes slip lag) t =
              none))) ∧
    ((RsiBollingerStrategy.generate_signals rp bp closes).sum ≠ 0 →
      (RsiBollingerStrategy.run_backtest rp bp closes init cost slip lag).balance =
        RsiBollingerStrategy.tradingBalance rp bp closes init cost slip lag) ∧
    (t < bars.length →
      ((getV (VWAPReversionStrategy.generate_signals θ bars) t = some 0 →
          getV (VWAPReversionStrategy.strategy_return θ bars vcost) t =
            getV (VWAPReversionStrategy.preCostReturn θ bars) t) ∧
        (∀ q : ℚ, q ≠ 0 →
          getV (VWAPReversionStrategy.generate_signals θ bars) t = some q →
          getV (VWAPReversionStrategy.strategy_return θ bars vcost) t =
            subV (getV (VWAPReversionStrategy.preCostReturn θ bars) t)
              (some vcost)) ∧
        (getV (VWAPReversionStrategy.generate_signals θ bars) t = none →
          getV (VWAPReversionStrategy.strategy_return θ bars vcost) t = none ∧
            getV (VWAPReversionStrategy.preCostReturn θ bars) t = none))) := by
  refine ⟨fun ht => ?_, fun hs => ?_, fun ht => ?_⟩
  · have hzip : getV (RsiBollingerStrategy.return_with_slippage rp bp closes cost
        slip lag) t =
        (fun s r => if neZeroV s then subV r (some cost) else r)
          (getV (RsiBollingerStrategy.effectiveSignal rp bp closes lag) t)
          (getV (RsiBollingerStrategy.preCostReturn rp bp closes slip lag) t) := by
      unfold RsiBollingerStrategy.return_with_slippage
      exact getV_zipWith _
        (by rw [RsiBollingerStrategy.length_effectiveSignal]; exact ht)
        (by rw [rsi_length_preCostReturn]; exact ht)
    refine ⟨fun h0 => ?_, fun q hq hsq => ?_, fun hnone => ?_⟩
    · rw [hzip, h0]
      simp [neZeroV]
    · rw [hzip, hsq]
      simp [neZeroV, hq]
    · have hlag : t < lag := by
        by_contra hge
        have := hnone
        unfold RsiBollingerStrategy.effectiveSignal at this
        rw [getV_shiftV lag _ (by
          rw [List.length_map, rsi_length_generate_signals]
          exact ht), if_neg hge] at this
        rw [getV_map_some (by
          rw [rsi_length_generate_signals]
          exact lt_of_le_of_lt (Nat.sub_le t lag) ht)] at this
        exact absurd this (by simp)
      have hpre : getV (RsiBollingerStrategy.preCostReturn rp bp closes slip
          lag) t = none := by
        unfold RsiBollingerStrategy.preCostReturn
        rw [getV_zipWith mulV
          (by rw [length_shiftV, RsiBollingerStrategy.length_effectiveSignal]; exact ht)
          (by rw [length_pctChangeV,
            RsiBollingerStrategy.length_price_with_slippage]; exact ht)]
        rcases Nat.eq_zero_or_pos t with h0 | hpos
        · subst h0
          rw [getV_shiftV 1 _ (by
            rw [RsiBollingerStrategy.length_effectiveSignal]; exact ht)]
          rfl
        · rw [getV_shiftV 1 _ (by
            rw [RsiBollingerStrategy.length_effectiveSignal]; exact ht),
            if_neg (by omega)]
          have : getV (RsiBollingerStrategy.effectiveSignal rp bp closes lag)
              (t - 1) = none := by
            unfold RsiBollingerStrategy.effectiveSignal
            rw [getV_shiftV lag _ (by
              rw [List.length_map, rsi_length_generate_signals]
              exact lt_of_le_of_lt (Nat.sub_le t 1) ht), if_pos (by omega)]
          rw [this]
          rfl
      exact ⟨by rw [hzip, hnone, hpre]; exact mask_none _ _, hpre⟩
  · unfold RsiBollingerStrategy.run_backtest
    rw [if_neg hs]
  · have hzip : getV (VWAPReversionStrategy.strategy_return θ bars vcost) t =
        (fun s r => if neZeroV s then subV r (some vcost) else r)
          (getV (VWAPReversionStrategy.generate_signals θ bars) t)
          (getV (VWAPReversionStrategy.preCostReturn θ bars) t) := by
      unfold VWAPReversionStrategy.strategy_return
      exact getV_zipWith _
        (by rw [vwap_length_generate_signals]; exact ht)
        (by rw [vwap_length_preCostReturn]; exact ht)
    refine ⟨fun h0 => ?_, fun q hq hsq => ?_, fun hnone => ?_⟩
    · rw [hzip, h0]
      simp [neZeroV]
    · rw [hzip, hsq]
      simp [neZeroV, hq]
    · have hpre : getV (VWAPReversionStrategy.preCostReturn θ bars) t = none := by
        unfold VWAPReversionStrategy.preCostReturn
        rw [getV_zipWith mulV
          (by rw [vwap_length_generate_signals]; exact ht)
          (by rw [VWAPReversionStrategy.length_barReturn]; exact ht)]
        rw [hnone]
        rfl
      exact ⟨by rw [hzip, hnone, hpre]; exact mask_none _ _, hpre⟩

/-- Claim C3 counterexample: on `cancelCloses` the strategy generates a +1
(bar 5, effective at bar 6 after the lag), yet because the signals sum to 0
`run_backtest` short-circuits: with transaction cost 0.5 the balance stays
constant at `initial_balance` and equals the zero-cost balance — no cost is
subtracted on a bar whose effective signal is nonzero, contradicting the
claim as stated for every series. -/
theorem C3_counterexample :
    getV (RsiBollingerStrategy.effectiveSignal 2 6 cancelCloses 1) 6 = some 1 ∧
    (RsiBollingerStrategy.run_backtest 2 6 cancelCloses 10000 (1 / 2)
        (1 / 10 ^ 4) 1).flat = true ∧
    (RsiBollingerStrategy.run_backtest 2 6 cancelCloses 10000 (1 / 2)
        (1 / 10 ^ 4) 1).balance =
      (RsiBollingerStrategy.run_backtest 2 6 cancelCloses 10000 0
        (1 / 10 ^ 4) 1).balance := by
  exact ⟨by decide, by decide, by decide⟩

/-- Claim C3 witness: the cost relation evaluated on `shortLossCloses`
(non-short-circuit path) at bars 6 (nonzero lagged signal: cost subtracted)
and bar 0 (NaN lagged signal: NaN before and after), and on `threeBars` for
the VWAP variant at bar 1 (signal 0: no cost). -/
theorem C3_witness :
    6 < shortLossCloses.length ∧
    (RsiBollingerStrategy.generate_signals 2 6 shortLossCloses).sum ≠ 0 ∧
    getV (RsiBollingerStrategy.effectiveSignal 2 6 shortLossCloses 1) 6 =
      some (-1) ∧
    getV (RsiBollingerStrategy.return_with_slippage 2 6 shortLossCloses
        (1 / 2) 0 1) 6 =
      subV (getV (RsiBollingerStrategy.preCostReturn 2 6 shortLossCloses 0 1) 6)
        (some (1 / 2)) ∧
    (RsiBollingerStrategy.run_backtest 2 6 shortLossCloses 10000 (1 / 2) 0
        1).balance =
      RsiBollingerStrategy.tradingBalance 2 6 shortLossCloses 10000 (1 / 2) 0 1 ∧
    1 < threeBars.length ∧
    getV (VWAPReversionStrategy.generate_signals (1 / 50) threeBars) 1 =
      some 0 ∧
    getV (VWAPReversionStrategy.strategy_return (1 / 50) threeBars (1 / 10 ^ 3)) 1 =
      getV (VWAPReversionStrategy.preCostReturn (1 / 50) threeBars) 1 :=
  ⟨by decide, by decide, by decide,
    ((C3_theorem 2 6 1 shortLossCloses threeBars 10000 (1 / 2) 0 (1 / 10 ^ 3)
        (1 / 50) 6).1 (by decide)).2.1 (-1) (by decide) (by decide),
    (C3_theorem 2 6 1 shortLossCloses threeBars 10000 (1 / 2) 0 (1 / 10 ^ 3)
        (1 / 50) 6).2.1 (by decide),
    by decide, by decide,
    ((C3_theorem 2 6 1 shortLossCloses threeBars 10000 (1 / 2) 0 (1 / 10 ^ 3)
        (1 / 50) 1).2.2 (by decide)).1 (by decide)⟩

/-! ## Claim C4 -/

/-- Claim C4 (confirmed).  In `RsiBollingerStrategy.run_backtest` with
execution lag `L` (non-short-circuit path): for every bar `t < L` the
effective signal cell is undefined and is treated as no-signal rather than
an error — the filled return contributes a factor of exactly 1, leaving
`balance[t] = initial_balance`; and in general
`balance[t] = balance[t-1] * (1 + filled_return[t])` with
`balance[0] = initial_balance * (1 + filled_return[0])`, where any
NaN/undefined return is filled to a 0 contribution. -/
theorem C4_theorem (rp bp lag : ℕ) (closes : List ℚ) (init cost slip : ℚ)
    (hsum : (RsiBollingerStrategy.generate_signals rp bp closes).sum ≠ 0) :
    (∀ t, t < closes.length → t < lag →
      getV (RsiBollingerStrategy.effectiveSignal rp bp closes lag) t = none ∧
      (RsiBollingerStrategy.fillnaFactor rp bp closes cost slip lag).getD t 0 =
        1 ∧
      getV ((RsiBollingerStrategy.run_backtest rp bp closes init cost slip
        lag).balance) t = some init) ∧
    (closes ≠ [] →
      getV ((RsiBollingerStrategy.run_backtest rp bp closes init cost slip
          lag).balance) 0 =
        some (init *
          (RsiBollingerStrategy.fillnaFactor rp bp closes cost slip lag).getD 0
            0)) ∧
    (∀ t, 1 ≤ t → t < closes.length →
      getV ((RsiBollingerStrategy.run_backtest rp bp closes init cost slip
          lag).balance) t =
        mulV (getV ((RsiBollingerStrategy.run_backtest rp bp closes init cost
            slip lag).balance) (t - 1))
          (some ((RsiBollingerStrategy.fillnaFactor rp bp closes cost slip
            lag).getD t 0))) := by
  have hbal : (RsiBollingerStrategy.run_backtest rp bp closes init cost slip
      lag).balance =
      RsiBollingerStrategy.tradingBalance rp bp closes init cost slip lag := by
    unfold RsiBollingerStrategy.run_backtest
    rw [if_neg hsum]
  have hballen : ∀ t, t < closes.length →
      getV (RsiBollingerStrategy.tradingBalance rp bp closes init cost slip
        lag) t =
      some (init * ((RsiBollingerStrategy.fillnaFactor rp bp closes cost slip
        lag).take (t + 1)).prod) := by
    intro t ht
    unfold RsiBollingerStrategy.tradingBalance
    rw [getV_map _ (by
      rw [length_cumprodV, List.length_map,
        RsiBollingerStrategy.length_fillnaFactor]; exact ht)]
    rw [getV_cumprod_map_some _ (by
      rw [RsiBollingerStrategy.length_fillnaFactor]; exact ht)]
    rfl
  have hfactor1 : ∀ t, t < closes.length → t < lag →
      (RsiBollingerStrategy.fillnaFactor rp bp closes cost slip lag).getD t 0 =
        1 := by
    intro t ht htl
    unfold RsiBollingerStrategy.fillnaFactor
    rw [getD_map_toQ _ (by
      rw [RsiBollingerStrategy.length_return_with_slippage]; exact ht)]
    have hrws : getV (RsiBollingerStrategy.return_with_slippage rp bp closes
        cost slip lag) t = none := by
      have hsig : getV (RsiBollingerStrategy.effectiveSignal rp bp closes lag)
          t = none := by
        unfold RsiBollingerStrategy.effectiveSignal
        rw [getV_shiftV lag _ (by
          rw [List.length_map, rsi_length_generate_signals]
          exact ht), if_pos htl]
      have hpre : getV (RsiBollingerStrategy.preCostReturn rp bp closes slip
          lag) t = none := by
        unfold RsiBollingerStrategy.preCostReturn
        rw [getV_zipWith mulV
          (by rw [length_shiftV, RsiBollingerStrategy.length_effectiveSignal]
              exact ht)
          (by rw [length_pctChangeV,
              RsiBollingerStrategy.length_price_with_slippage]; exact ht)]
        rcases Nat.eq_zero_or_pos t with h0 | hpos
        · subst h0
          rw [getV_shiftV 1 _ (by
            rw [RsiBollingerStrategy.length_effectiveSignal]; exact ht)]
          rfl
        · rw [getV_shiftV 1 _ (by
            rw [RsiBollingerStrategy.length_effectiveSignal]; exact ht),
            if_neg (by omega)]
          have : getV (RsiBollingerStrategy.effectiveSignal rp bp closes lag)
              (t - 1) = none := by
            unfold RsiBollingerStrategy.effectiveSignal
            rw [getV_shiftV lag _ (by
              rw [List.length_map, rsi_length_generate_signals]
              exact lt_of_le_of_lt (Nat.sub_le t 1) ht), if_pos (by omega)]
          rw [this]
          rfl
      unfold RsiBollingerStrategy.return_with_slippage
      rw [getV_zipWith _
        (by rw [RsiBollingerStrategy.length_effectiveSignal]; exact ht)
        (by rw [rsi_length_preCostReturn]; exact ht)]
      rw [hpre, hsig]
      rfl
    rw [hrws]
    norm_num
  refine ⟨fun t ht htl => ?_, fun hne => ?_, fun t h1 ht => ?_⟩
  · refine ⟨?_, hfactor1 t ht htl, ?_⟩
    · unfold RsiBollingerStrategy.effectiveSignal
      rw [getV_shiftV lag _ (by
        rw [List.length_map, rsi_length_generate_signals]
        exact ht), if_pos htl]
    · rw [hbal, hballen t ht]
      have : ((RsiBollingerStrategy.fillnaFactor rp bp closes cost slip
          lag).take (t + 1)).prod = 1 := by
        apply prod_take_ones
        intro s hsl hst
        exact hfactor1 s (by
          rw [RsiBollingerStrategy.length_fillnaFactor] at hsl; exact hsl)
          (lt_of_le_of_lt hst htl)
      rw [this, mul_one]
  · have h0 : 0 < closes.length := List.length_pos.mpr hne
    rw [hbal, hballen 0 h0]
    congr 1
    have hlen : 0 < (RsiBollingerStrategy.fillnaFactor rp bp closes cost slip
        lag).length := by
      rw [RsiBollingerStrategy.length_fillnaFactor]; exact h0
    rw [prod_take_succ_getD _ hlen]
    simp
  · rw [hbal, hballen t ht, hballen (t - 1) (lt_of_le_of_lt (Nat.sub_le t 1) ht)]
    have hlen : t < (RsiBollingerStrategy.fillnaFactor rp bp closes cost slip
        lag).length := by
      rw [RsiBollingerStrategy.length_fillnaFactor]; exact ht
    have ht1 : t - 1 + 1 = t := by omega
    rw [ht1, prod_take_succ_getD _ hlen]
    simp [mulV, mul_assoc]

/-- Claim C4 witness: on `shortLossCloses` (signal sum -1, non-short-circuit)
with lag 2, bar 1 < lag has an undefined effective signal, factor 1 and
balance still 10000; the compounding recurrence holds at every bar. -/
theorem C4_witness :
    (RsiBollingerStrategy.generate_signals 2 6 shortLossCloses).sum ≠ 0 ∧
    ((∀ t, t < shortLossCloses.length → t < 2 →
      getV (RsiBollingerStrategy.effectiveSignal 2 6 shortLossCloses 2) t =
        none ∧
      (RsiBollingerStrategy.fillnaFactor 2 6 shortLossCloses (1 / 10 ^ 4)
        (1 / 10 ^ 4) 2).getD t 0 = 1 ∧
      getV ((RsiBollingerStrategy.run_backtest 2 6 shortLossCloses 10000
        (1 / 10 ^ 4) (1 / 10 ^ 4) 2).balance) t = some 10000) ∧
    (shortLossCloses ≠ [] →
      getV ((RsiBollingerStrategy.run_backtest 2 6 shortLossCloses 10000
          (1 / 10 ^ 4) (1 / 10 ^ 4) 2).balance) 0 =
        some (10000 *
          (RsiBollingerStrategy.fillnaFactor 2 6 shortLossCloses (1 / 10 ^ 4)
            (1 / 10 ^ 4) 2).getD 0 0)) ∧
    (∀ t, 1 ≤ t → t < shortLossCloses.length →
      getV ((RsiBollingerStrategy.run_backtest 2 6 shortLossCloses 10000
          (1 / 10 ^ 4) (1 / 10 ^ 4) 2).balance) t =
        mulV (getV ((RsiBollingerStrategy.run_backtest 2 6 shortLossCloses
            10000 (1 / 10 ^ 4) (1 / 10 ^ 4) 2).balance) (t - 1))
          (some ((RsiBollingerStrategy.fillnaFactor 2 6 shortLossCloses
            (1 / 10 ^ 4) (1 / 10 ^ 4) 2).getD t 0)))) :=
  ⟨by decide,
    C4_theorem 2 6 2 shortLossCloses 10000 (1 / 10 ^ 4) (1 / 10 ^ 4) (by decide)⟩

theorem prod_take_mono {l1 l2 : List ℚ} (hlen : l1.length = l2.length)
    (h : ∀ s, s < l1.length → 0 ≤ l2.getD s 0 ∧ l2.getD s 0 ≤ l1.getD s 0) :
    ∀ t, 0 ≤ (l2.take t).prod ∧ (l2.take t).prod ≤ (l1.take t).prod := by
  intro t
  induction t with
  | zero => simp
  | succ t ih =>
    by_cases htl : t < l1.length
    · rw [prod_take_succ_getD l1 htl, prod_take_succ_getD l2 (hlen ▸ htl)]
      rcases h t htl with ⟨hb0, hba⟩
      constructor
      · exact mul_nonneg ih.1 hb0
      · exact mul_le_mul ih.2 hba hb0
          (le_trans ih.1 ih.2)
    · have e1 : l1.take (t + 1) = l1 := List.take_of_length_le (by omega)
      have e2 : l2.take (t + 1) = l2 := List.take_of_length_le (by omega)
      have e3 : l1.take t = l1 := List.take_of_length_le (by omega)
      have e4 : l2.take t = l2 := List.take_of_length_le (by omega)
      rw [e1, e2]
      rw [e3, e4] at ih
      exact ih

theorem filtered_prod_mono {L1 L2 : List V} (hlen : L1.length = L2.length)
    (h : ∀ s, s < L1.length →
      (getV L1 s = none ∧ getV L2 s = none) ∨
      (∃ a b : ℚ, getV L1 s = some a ∧ getV L2 s = some b ∧ 0 ≤ b ∧ b ≤ a)) :
    ∀ t, 0 ≤ ((L2.take t).filterMap id).prod ∧
      ((L2.take t).filterMap id).prod ≤ ((L1.take t).filterMap id).prod := by
  intro t
  induction t with
  | zero => simp
  | succ t ih =>
    by_cases htl : t < L1.length
    · have htl2 : t < L2.length := hlen ▸ htl
      rw [List.take_succ, List.take_succ, List.filterMap_append,
        List.filterMap_append, List.prod_append, List.prod_append]
      have h1 : L1[t]? = some (getV L1 t) := by
        rw [getV_eq, List.getElem?_eq_getElem htl]
        rfl
      have h2 : L2[t]? = some (getV L2 t) := by
        rw [getV_eq, List.getElem?_eq_getElem htl2]
        rfl
      rcases h t htl with ⟨hn1, hn2⟩ | ⟨a, b, ha, hb, hb0, hba⟩
      · rw [h1, h2, hn1, hn2]
        simpa using ih
      · rw [h1, h2, ha, hb]
        simp only [Option.toList_some, List.filterMap_cons, List.filterMap_nil]
        simp only [id, List.prod_cons, List.prod_nil, mul_one]
        constructor
        · exact mul_nonneg ih.1 hb0
        · exact mul_le_mul ih.2 hba hb0 (le_trans ih.1 ih.2)
    · have e1 : L1.take (t + 1) = L1 := List.take_of_length_le (by omega)
      have e2 : L2.take (t + 1) = L2 := List.take_of_length_le (by omega)
      have e3 : L1.take t = L1 := List.take_of_length_le (by omega)
      have e4 : L2.take t = L2 := List.take_of_length_le (by omega)
      rw [e1, e2]
      rw [e3, e4] at ih
      exact ih

theorem RsiBollingerStrategy.tradingBalance_at (rp bp : ℕ) (closes : List ℚ)
    (init cost slip : ℚ) (lag : ℕ) {t : ℕ} (ht : t < closes.length) :
    getV (RsiBollingerStrategy.tradingBalance rp bp closes init cost slip lag) t =
      some (init * ((RsiBollingerStrategy.fillnaFactor rp bp closes cost slip
        lag).take (t + 1)).prod) := by
  unfold RsiBollingerStrategy.tradingBalance
  rw [getV_map _ (by
    rw [length_cumprodV, List.length_map,
      RsiBollingerStrategy.length_fillnaFactor]; exact ht)]
  rw [getV_cumprod_map_some _ (by
    rw [RsiBollingerStrategy.length_fillnaFactor]; exact ht)]
  rfl

theorem RsiBollingerStrategy.factor_mono {rp bp lag : ℕ} {closes : List ℚ}
    {slip c1 c2 : ℚ} (hc : c1 ≤ c2) {s : ℕ} (hs : s < closes.length) :
    (RsiBollingerStrategy.fillnaFactor rp bp closes c2 slip lag).getD s 0 ≤
      (RsiBollingerStrategy.fillnaFactor rp bp closes c1 slip lag).getD s 0 := by
  unfold RsiBollingerStrategy.fillnaFactor
  rw [getD_map_toQ _ (by
      rw [RsiBollingerStrategy.length_return_with_slippage]; exact hs),
    getD_map_toQ _ (by
      rw [RsiBollingerStrategy.length_return_with_slippage]; exact hs)]
  unfold RsiBollingerStrategy.return_with_slippage
  rw [getV_zipWith _
    (by rw [RsiBollingerStrategy.length_effectiveSignal]; exact hs)
    (by rw [rsi_length_preCostReturn]; exact hs),
    getV_zipWith _
    (by rw [RsiBollingerStrategy.length_effectiveSignal]; exact hs)
    (by rw [rsi_length_preCostReturn]; exact hs)]
  cases hm : neZeroV (getV (RsiBollingerStrategy.effectiveSignal rp bp closes
      lag) s)
  · simp
  · cases hp : getV (RsiBollingerStrategy.preCostReturn rp bp closes slip lag) s
    · simp [subV]
    · rename_i p
      simp only [if_pos, subV, Option.getD_some]
      show (1 : ℚ) + (p - c2) ≤ 1 + (p - c1)
      linarith

theorem VWAPReversionStrategy.factorCol_at {θ : ℚ} {bars : List Bar} {c : ℚ}
    {s : ℕ} (hs : s < bars.length) :
    getV (VWAPReversionStrategy.factorCol θ bars c) s =
      addV (some 1)
        ((fun sg r => if neZeroV sg then subV r (some c) else r)
          (getV (VWAPReversionStrategy.generate_signals θ bars) s)
          (getV (VWAPReversionStrategy.preCostReturn θ bars) s)) := by
  unfold VWAPReversionStrategy.factorCol
  rw [getV_map _ (by
    rw [vwap_length_strategy_return]; exact hs)]
  unfold VWAPReversionStrategy.strategy_return
  rw [getV_zipWith _
    (by rw [vwap_length_generate_signals]; exact hs)
    (by rw [vwap_length_preCostReturn]; exact hs)]

theorem VWAPReversionStrategy.factor_rel {θ : ℚ} {bars : List Bar}
    {c1 c2 : ℚ} (hc : c1 ≤ c2)
    (hvfac : ∀ t, t < bars.length →
      0 ≤ (getV (VWAPReversionStrategy.factorCol θ bars c2) t).getD 0) :
    ∀ s, s < bars.length →
      (getV (VWAPReversionStrategy.factorCol θ bars c1) s = none ∧
        getV (VWAPReversionStrategy.factorCol θ bars c2) s = none) ∨
      (∃ a b : ℚ, getV (VWAPReversionStrategy.factorCol θ bars c1) s = some a ∧
        getV (VWAPReversionStrategy.factorCol θ bars c2) s = some b ∧
        0 ≤ b ∧ b ≤ a) := by
  intro s hs
  have h1 := @VWAPReversionStrategy.factorCol_at θ bars c1 s hs
  have h2 := @VWAPReversionStrategy.factorCol_at θ bars c2 s hs
  have hv := hvfac s hs
  cases hp : getV (VWAPReversionStrategy.preCostReturn θ bars) s
  · left
    rw [hp] at h1 h2
    cases hm : neZeroV (getV (VWAPReversionStrategy.generate_signals θ bars) s) <;>
      simp only [hm, if_true, if_false, Bool.false_eq_true] at h1 h2 <;>
        exact ⟨by rw [h1]; rfl, by rw [h2]; rfl⟩
  · rename_i p
    right
    rw [hp] at h1 h2
    cases hm : neZeroV (getV (VWAPReversionStrategy.generate_signals θ bars) s)
    · simp only [hm, Bool.false_eq_true, if_false] at h1 h2
      refine ⟨1 + p, 1 + p, by rw [h1]; rfl, by rw [h2]; rfl, ?_, le_refl _⟩
      rw [h2] at hv
      simpa [addV] using hv
    · simp only [hm, if_true] at h1 h2
      refine ⟨1 + (p - c1), 1 + (p - c2), by rw [h1]; rfl, by rw [h2]; rfl,
        ?_, by linarith⟩
      rw [h2] at hv
      simpa [addV, subV] using hv

/-! ## Claim C5 -/

/-- Claim C5 (amended).  Holding everything but the transaction cost fixed,
the backtest balance (in particular the final balance) is monotonically
non-increasing in the transaction cost provided every per-bar compounding
factor under the larger cost is non-negative: for `RsiBollingerStrategy`
every balance cell is a number and the cell under `c2 ≥ c1` is at most the
cell under `c1`; for `VWAPReversionStrategy` the NaN pattern of the balance
is the same under both costs and every numeric cell is ordered the same
way.  Without the non-negative-factor proviso the property is false (see
the counterexample: a factor driven below -1 flips the sign of the
product). -/
theorem C5_theorem (rp bp lag : ℕ) (closes : List ℚ) (bars : List Bar)
    (init c1 c2 slip vinit vc1 vc2 θ : ℚ)
    (hinit : 0 ≤ init) (hvinit : 0 ≤ vinit) (hc : c1 ≤ c2) (hvc : vc1 ≤ vc2)
    (hfac : ∀ t, t < closes.length →
      0 ≤ (RsiBollingerStrategy.fillnaFactor rp bp closes c2 slip lag).getD t 0)
    (hvfac : ∀ t, t < bars.length →
      0 ≤ (getV (VWAPReversionStrategy.factorCol θ bars vc2) t).getD 0) :
    (∀ t, t < closes.length → ∃ q1 q2 : ℚ,
      getV ((RsiBollingerStrategy.run_backtest rp bp closes init c1 slip
        lag).balance) t = some q1 ∧
      getV ((RsiBollingerStrategy.run_backtest rp bp closes init c2 slip
        lag).balance) t = some q2 ∧
      q2 ≤ q1) ∧
    (∀ t, t < bars.length →
      (getV (VWAPReversionStrategy.run_backtest θ bars vinit vc1) t = none ∧
        getV (VWAPReversionStrategy.run_backtest θ bars vinit vc2) t = none) ∨
      (∃ q1 q2 : ℚ,
        getV (VWAPReversionStrategy.run_backtest θ bars vinit vc1) t = some q1 ∧
        getV (VWAPReversionStrategy.run_backtest θ bars vinit vc2) t = some q2 ∧
        q2 ≤ q1)) := by
  constructor
  · intro t ht
    by_cases hs : (RsiBollingerStrategy.generate_signals rp bp closes).sum = 0
    · refine ⟨init, init, ?_, ?_, le_refl init⟩ <;>
        · unfold RsiBollingerStrategy.run_backtest
          rw [if_pos hs]
          show getV (List.replicate closes.length (some init)) t = some init
          rw [getV_eq, List.getElem?_replicate, if_pos ht]
          rfl
    · have hlen : (RsiBollingerStrategy.fillnaFactor rp bp closes c1 slip
          lag).length =
          (RsiBollingerStrategy.fillnaFactor rp bp closes c2 slip lag).length := by
        rw [RsiBollingerStrategy.length_fillnaFactor,
          RsiBollingerStrategy.length_fillnaFactor]
      have hmono := prod_take_mono hlen (fun s hsl => by
        rw [RsiBollingerStrategy.length_fillnaFactor] at hsl
        exact ⟨hfac s hsl, RsiBollingerStrategy.factor_mono hc hsl⟩) (t + 1)
      refine ⟨init * ((RsiBollingerStrategy.fillnaFactor rp bp closes c1 slip
          lag).take (t + 1)).prod,
        init * ((RsiBollingerStrategy.fillnaFactor rp bp closes c2 slip
          lag).take (t + 1)).prod, ?_, ?_, ?_⟩
      · unfold RsiBollingerStrategy.run_backtest
        rw [if_neg hs]
        exact RsiBollingerStrategy.tradingBalance_at rp bp closes init c1 slip
          lag ht
      · unfold RsiBollingerStrategy.run_backtest
        rw [if_neg hs]
        exact RsiBollingerStrategy.tradingBalance_at rp bp closes init c2 slip
          lag ht
      · exact mul_le_mul_of_nonneg_left hmono.2 hinit
  · intro t ht
    have hrel := VWAPReversionStrategy.factor_rel hvc hvfac
    have hlen1 : (VWAPReversionStrategy.factorCol θ bars vc1).length =
        bars.length := by
      unfold VWAPReversionStrategy.factorCol
      rw [List.length_map, vwap_length_strategy_return]
    have hlen2 : (VWAPReversionStrategy.factorCol θ bars vc2).length =
        bars.length := by
      unfold VWAPReversionStrategy.factorCol
      rw [List.length_map, vwap_length_strategy_return]
    have hb1 : getV (VWAPReversionStrategy.run_backtest θ bars vinit vc1) t =
        mulV (some vinit)
          (getV (cumprodV (VWAPReversionStrategy.factorCol θ bars vc1)) t) := by
      unfold VWAPReversionStrategy.run_backtest VWAPReversionStrategy.factorCol
      rw [getV_map _ (by
        rw [length_cumprodV, List.length_map,
          vwap_length_strategy_return]; exact ht)]
    have hb2 : getV (VWAPReversionStrategy.run_backtest θ bars vinit vc2) t =
        mulV (some vinit)
          (getV (cumprodV (VWAPReversionStrategy.factorCol θ bars vc2)) t) := by
      unfold VWAPReversionStrategy.run_backtest VWAPReversionStrategy.factorCol
      rw [getV_map _ (by
        rw [length_cumprodV, List.length_map,
          vwap_length_strategy_return]; exact ht)]
    have hc1 := getV_cumprodV (VWAPReversionStrategy.factorCol θ bars vc1)
      (t := t) (by rw [hlen1]; exact ht)
    have hc2 := getV_cumprodV (VWAPReversionStrategy.factorCol θ bars vc2)
      (t := t) (by rw [hlen2]; exact ht)
    have hmono := filtered_prod_mono (by rw [hlen1, hlen2])
      (fun s hsl => hrel s (by rw [hlen1] at hsl; exact hsl)) (t + 1)
    rcases hrel t ht with ⟨hn1, hn2⟩ | ⟨a, b, ha, hb, hb0, hba⟩
    · left
      rw [hn1] at hc1
      rw [hn2] at hc2
      constructor
      · rw [hb1, hc1]
        rfl
      · rw [hb2, hc2]
        rfl
    · right
      rw [ha] at hc1
      rw [hb] at hc2
      refine ⟨vinit * (((VWAPReversionStrategy.factorCol θ bars vc1).take
          (t + 1)).filterMap id).prod,
        vinit * (((VWAPReversionStrategy.factorCol θ bars vc2).take
          (t + 1)).filterMap id).prod, ?_, ?_, ?_⟩
      · rw [hb1, hc1]
        rfl
      · rw [hb2, hc2]
        rfl
      · exact mul_le_mul_of_nonneg_left hmono.2 hvinit

/-- Claim C5 counterexample: on `shortLossCloses` the signals are fixed and
non-trivial (sum -1), yet raising the transaction cost from 0 to 0.5 RAISES
the final balance from -20000 to -10000: the short position's factor
`1 + r` is negative at the last bar, so the cost-reduced positive factor at
bar 6 multiplies into a larger (less negative) product.  Monotonicity fails
as stated. -/
theorem C5_counterexample :
    ((0 : ℚ) ≤ 1 / 2) ∧
    (RsiBollingerStrategy.generate_signals 2 6 shortLossCloses).sum ≠ 0 ∧
    getV ((RsiBollingerStrategy.run_backtest 2 6 shortLossCloses 10000 0 0
        1).balance) (shortLossCloses.length - 1) = some (-20000) ∧
    getV ((RsiBollingerStrategy.run_backtest 2 6 shortLossCloses 10000 (1 / 2)
        0 1).balance) (shortLossCloses.length - 1) = some (-10000) ∧
    ¬ ((-10000 : ℚ) ≤ -20000) :=
  ⟨by decide, by decide, by decide, by decide, by decide⟩

/-- Claim C5 witness: the amended monotonicity applied on concrete series
whose compounding factors under the larger cost are all non-negative. -/
theorem C5_witness :
    ((0 : ℚ) ≤ 10000) ∧ ((0 : ℚ) ≤ 1 / 2) ∧ ((0 : ℚ) ≤ 1 / 10 ^ 3) ∧
    (∀ t, t < ([100, 100, 100] : List ℚ).length →
      0 ≤ (RsiBollingerStrategy.fillnaFactor 2 6 [100, 100, 100] (1 / 2) 0
        1).getD t 0) ∧
    (∀ t, t < threeBars.length →
      0 ≤ (getV (VWAPReversionStrategy.factorCol (1 / 50) threeBars
        (1 / 10 ^ 3)) t).getD 0) ∧
    ((∀ t, t < ([100, 100, 100] : List ℚ).length → ∃ q1 q2 : ℚ,
      getV ((RsiBollingerStrategy.run_backtest 2 6 [100, 100, 100] 10000 0 0
        1).balance) t = some q1 ∧
      getV ((RsiBollingerStrategy.run_backtest 2 6 [100, 100, 100] 10000
        (1 / 2) 0 1).balance) t = some q2 ∧
      q2 ≤ q1) ∧
    (∀ t, t < threeBars.length →
      (getV (VWAPReversionStrategy.run_backtest (1 / 50) threeBars 10000 0) t =
          none ∧
        getV (VWAPReversionStrategy.run_backtest (1 / 50) threeBars 10000
          (1 / 10 ^ 3)) t = none) ∨
      (∃ q1 q2 : ℚ,
        getV (VWAPReversionStrategy.run_backtest (1 / 50) threeBars 10000 0) t =
          some q1 ∧
        getV (VWAPReversionStrategy.run_backtest (1 / 50) threeBars 10000
          (1 / 10 ^ 3)) t = some q2 ∧
        q2 ≤ q1))) :=
  ⟨by decide, by decide, by decide, by decide, by decide,
    C5_theorem 2 6 1 [100, 100, 100] threeBars 10000 0 (1 / 2) 0 10000 0
      (1 / 10 ^ 3) (1 / 50) (by decide) (by decide) (by decide) (by decide)
      (by decide) (by decide)⟩

theorem mem_filterMap_id_iff {xs : List V} {q : ℚ} :
    q ∈ xs.filterMap id ↔ ∃ s, s < xs.length ∧ getV xs s = some q := by
  rw [List.mem_filterMap]
  constructor
  · rintro ⟨cell, hmem, hcell⟩
    rcases List.mem_iff_getElem.mp hmem with ⟨i, hi, hie⟩
    refine ⟨i, hi, ?_⟩
    rw [getV_eq, List.getElem?_eq_getElem hi, hie]
    simpa using hcell
  · rintro ⟨s, hs, hcell⟩
    refine ⟨some q, ?_, rfl⟩
    rw [getV_eq, List.getElem?_eq_getElem hs] at hcell
    rw [← show xs[s] = some q from hcell]
    exact List.getElem_mem hs

theorem mem_filterMap_id_take_iff {xs : List V} {t : ℕ} {q : ℚ} :
    q ∈ (xs.take (t + 1)).filterMap id ↔
      ∃ s, s ≤ t ∧ s < xs.length ∧ getV xs s = some q := by
  rw [mem_filterMap_id_iff]
  constructor
  · rintro ⟨s, hs, hcell⟩
    have hs' := hs
    rw [List.length_take] at hs'
    have hst : s ≤ t := by omega
    have hsx : s < xs.length := by omega
    refine ⟨s, hst, hsx, ?_⟩
    rw [getV_eq, List.getElem?_eq_getElem hs, List.getElem_take xs] at hcell
    rw [getV_eq, List.getElem?_eq_getElem hsx]
    exact hcell
  · rintro ⟨s, hst, hsx, hcell⟩
    have hs : s < (xs.take (t + 1)).length := by
      rw [List.length_take]
      omega
    refine ⟨s, hs, ?_⟩
    rw [getV_eq, List.getElem?_eq_getElem hs, List.getElem_take xs]
    rw [getV_eq, List.getElem?_eq_getElem hsx] at hcell
    exact hcell

theorem length_drawdownCol (b : List V) :
    (VWAPReversionStrategy.drawdownCol b).length = b.length := by
  simp [VWAPReversionStrategy.drawdownCol, List.length_zipWith, length_cummaxV]

/-- Characterization of a defined drawdown cell: the running max `m` is a
positive attained bound of the defined prefix and the cell is `x/m - 1`. -/
theorem drawdown_cell_spec {b : List V} (hpos : definedPos b) {t : ℕ}
    (ht : t < b.length) {x : ℚ} (hx : getV b t = some x) :
    ∃ m : ℚ, 0 < m ∧ x ≤ m ∧
      (∀ y : ℚ, (∃ s, s ≤ t ∧ s < b.length ∧ getV b s = some y) → y ≤ m) ∧
      (∃ s, s ≤ t ∧ s < b.length ∧ getV b s = some m) ∧
      getV (VWAPReversionStrategy.drawdownCol b) t = some (x / m - 1) := by
  haveI : Std.Antisymm ((· : ℚ) ≤ ·) := ⟨fun h1 h2 => le_antisymm h1 h2⟩
  have hmax : getV (cummaxV b) t = ((b.take (t + 1)).filterMap id).max? := by
    rw [getV_cummaxV b ht, hx]
    rfl
  have hmem : x ∈ (b.take (t + 1)).filterMap id :=
    mem_filterMap_id_take_iff.mpr ⟨t, le_refl t, ht, hx⟩
  rcases hm : ((b.take (t + 1)).filterMap id).max? with _ | m
  · rw [List.max?_eq_none_iff] at hm
    rw [hm] at hmem
    exact absurd hmem (List.not_mem_nil x)
  · have hspec := (List.max?_eq_some_iff (fun a => le_refl a)
      (fun a b => max_choice a b) (fun a b c => max_le_iff)).mp hm
    have hmmem : ∃ s, s ≤ t ∧ s < b.length ∧ getV b s = some m :=
      mem_filterMap_id_take_iff.mp hspec.1
    have hmpos : 0 < m := by
      rcases hmmem with ⟨s, _, hsx, hcell⟩
      have := hpos s hsx
      rw [hcell] at this
      simpa using this
    refine ⟨m, hmpos, hspec.2 x hmem, ?_, hmmem, ?_⟩
    · rintro y ⟨s, hst, hsx, hcell⟩
      exact hspec.2 y (mem_filterMap_id_take_iff.mpr ⟨s, hst, hsx, hcell⟩)
    · unfold VWAPReversionStrategy.drawdownCol
      rw [getV_zipWith _ ht (by rw [length_cummaxV]; exact ht), hx, hmax, hm]
      simp [divV, subV, ne_of_gt hmpos]

theorem drawdown_cell_defined {b : List V} {t : ℕ} (ht : t < b.length) {q : ℚ}
    (hq : getV (VWAPReversionStrategy.drawdownCol b) t = some q) :
    ∃ x : ℚ, getV b t = some x := by
  unfold VWAPReversionStrategy.drawdownCol at hq
  rw [getV_zipWith _ ht (by rw [length_cummaxV]; exact ht)] at hq
  cases hx : getV b t
  · rw [hx] at hq
    exact absurd hq (by simp [divV, subV])
  · exact ⟨_, rfl⟩

/-- The full drawdown-metric specification for a balance column with a
numeric cell and positive numeric cells: the metric is a number `q ≤ 0`,
and `q = 0` iff the numeric cells are non-decreasing. -/
theorem maxDrawdownOf_spec (b : List V) (hsome : someDefined b)
    (hpos : definedPos b) :
    ∃ q : ℚ, VWAPReversionStrategy.maxDrawdownOf b = some q ∧ q ≤ 0 ∧
      (q = 0 ↔ definedMono b) := by
  haveI : Std.Antisymm ((· : ℚ) ≤ ·) := ⟨fun h1 h2 => le_antisymm h1 h2⟩
  have hcellspec : ∀ q : ℚ,
      q ∈ (VWAPReversionStrategy.drawdownCol b).filterMap id →
      ∃ t, t < b.length ∧ ∃ x m : ℚ, getV b t = some x ∧ 0 < m ∧ x ≤ m ∧
        (∀ y : ℚ, (∃ s, s ≤ t ∧ s < b.length ∧ getV b s = some y) → y ≤ m) ∧
        (∃ s, s ≤ t ∧ s < b.length ∧ getV b s = some m) ∧ q = x / m - 1 := by
    intro q hq
    rcases mem_filterMap_id_iff.mp hq with ⟨t, htl, hcell⟩
    rw [length_drawdownCol] at htl
    rcases drawdown_cell_defined htl hcell with ⟨x, hx⟩
    rcases drawdown_cell_spec hpos htl hx with ⟨m, hm0, hxm, hbound, hattain, hdd⟩
    rw [hdd] at hcell
    exact ⟨t, htl, x, m, hx, hm0, hxm, hbound, hattain,
      (Option.some_inj.mp hcell).symm⟩
  have hLE : ∀ q : ℚ, q ∈ (VWAPReversionStrategy.drawdownCol b).filterMap id →
      q ≤ 0 := by
    intro q hq
    rcases hcellspec q hq with ⟨t, htl, x, m, hx, hm0, hxm, _, _, hqe⟩
    rw [hqe]
    exact sub_nonpos.mpr ((div_le_one hm0).mpr hxm)
  have hne : ∃ q0 : ℚ,
      ((VWAPReversionStrategy.drawdownCol b).filterMap id).min? = some q0 := by
    rcases hsome with ⟨t0, ht0, hdef⟩
    rcases Option.isSome_iff_exists.mp hdef with ⟨x, hx⟩
    rcases drawdown_cell_spec hpos ht0 hx with ⟨m, hm0, hxm, _, _, hdd⟩
    have hmem : (x / m - 1) ∈ (VWAPReversionStrategy.drawdownCol b).filterMap
        id := mem_filterMap_id_iff.mpr ⟨t0, by rw [length_drawdownCol]; exact ht0,
          hdd⟩
    exact Option.isSome_iff_exists.mp (List.isSome_min?_of_mem hmem)
  rcases hne with ⟨q0, hmin⟩
  have hq0mem : q0 ∈ (VWAPReversionStrategy.drawdownCol b).filterMap id :=
    List.min?_mem (fun a b => min_choice a b) hmin
  refine ⟨q0, hmin, hLE q0 hq0mem, ?_, ?_⟩
  · intro h0
    have hall := (List.min?_eq_some_iff (fun a => le_refl a)
      (fun a b => min_choice a b) (fun a b c => le_min_iff)).mp hmin
    intro t htl s hst
    cases hcs : getV b s
    · rfl
    · cases hct : getV b t
      · rfl
      · rename_i a c
        have htb : t < b.length := htl
        rcases drawdown_cell_spec hpos htb hct with
          ⟨m, hm0, hcm, hbound, _, hdd⟩
        have hmemt : (c / m - 1) ∈ (VWAPReversionStrategy.drawdownCol
            b).filterMap id := mem_filterMap_id_iff.mpr
          ⟨t, by rw [length_drawdownCol]; exact htb, hdd⟩
        have h0le : (0 : ℚ) ≤ c / m - 1 := by
          have := hall.2 _ hmemt
          rw [h0] at this
          exact this
        have hmc : m ≤ c := by
          have h1c : (1 : ℚ) ≤ c / m := by linarith
          exact (one_le_div hm0).mp h1c
        have ham : a ≤ m := hbound a ⟨s, le_of_lt hst, lt_trans hst htb, hcs⟩
        show decide (a ≤ c) = true
        exact decide_eq_true (le_trans ham hmc)
  · intro hmono
    have hzero : ∀ q : ℚ,
        q ∈ (VWAPReversionStrategy.drawdownCol b).filterMap id → q = 0 := by
      intro q hq
      rcases hcellspec q hq with ⟨t, htl, x, m, hx, hm0, hxm, _, hattain, hqe⟩
      rcases hattain with ⟨s, hst, hsx, hcellm⟩
      have hmx : m ≤ x := by
        rcases lt_or_eq_of_le hst with hlt | heq
        · have := hmono t htl s hlt
          rw [hcellm, hx] at this
          exact of_decide_eq_true this
        · rw [heq, hx] at hcellm
          exact le_of_eq (Option.some_inj.mp hcellm).symm
      have hxe : x = m := le_antisymm hxm hmx
      rw [hqe, hxe, div_self (ne_of_gt hm0)]
      ring
    exact hzero q0 hq0mem

/-! ## Claim C7 -/

/-- Claim C7 (amended).  `max_drawdown` in `VWAPReversionStrategy.get_metrics`
equals the minimum over `t` of `balance[t] / running-max-of-balance[0..t] - 1`
(skipping NaN cells, as pandas does).  Whenever the balance column has at
least one numeric cell and all its numeric cells are positive, the metric is
a number `q ≤ 0`, and `q = 0` iff the numeric cells of the balance are
non-decreasing.  (Without a numeric cell the metric itself is NaN — see the
counterexample — and with non-positive balances the `iff` direction can
fail, which the claim's unconditional wording overlooks.) -/
theorem C7_theorem (θ : ℚ) (bars : List Bar)
    (hsome : someDefined (VWAPReversionStrategy.metricsBalance θ bars))
    (hpos : definedPos (VWAPReversionStrategy.metricsBalance θ bars)) :
    VWAPReversionStrategy.max_drawdown θ bars =
      minV (VWAPReversionStrategy.drawdownCol
        (VWAPReversionStrategy.metricsBalance θ bars)) ∧
    ∃ q : ℚ, VWAPReversionStrategy.max_drawdown θ bars = some q ∧ q ≤ 0 ∧
      (q = 0 ↔ definedMono (VWAPReversionStrategy.metricsBalance θ bars)) :=
  ⟨rfl, maxDrawdownOf_spec _ hsome hpos⟩

/-- Claim C7 counterexample: on a one-bar series the VWAP balance column is
`[NaN]`, so `max_drawdown` is NaN — there is no rational value at all, in
particular none that is `≤ 0`, contradicting "always ≤ 0". -/
theorem C7_counterexample :
    VWAPReversionStrategy.max_drawdown (1 / 50) oneBar = none ∧
    ¬ ∃ q : ℚ, VWAPReversionStrategy.max_drawdown (1 / 50) oneBar = some q ∧
      q ≤ 0 := by
  refine ⟨by decide, ?_⟩
  rintro ⟨q, hq, _⟩
  rw [show VWAPReversionStrategy.max_drawdown (1 / 50) oneBar = none from
    by decide] at hq
  exact absurd hq (by simp)

/-- Claim C7 witness: the amended statement on `threeBars`, whose balance
column is `[NaN, 10000, 10000]`. -/
theorem C7_witness :
    someDefined (VWAPReversionStrategy.metricsBalance (1 / 50) threeBars) ∧
    definedPos (VWAPReversionStrategy.metricsBalance (1 / 50) threeBars) ∧
    (VWAPReversionStrategy.max_drawdown (1 / 50) threeBars =
      minV (VWAPReversionStrategy.drawdownCol
        (VWAPReversionStrategy.metricsBalance (1 / 50) threeBars)) ∧
    ∃ q : ℚ, VWAPReversionStrategy.max_drawdown (1 / 50) threeBars = some q ∧
      q ≤ 0 ∧
      (q = 0 ↔ definedMono (VWAPReversionStrategy.metricsBalance (1 / 50)
        threeBars))) :=
  ⟨by decide, by decide, C7_theorem (1 / 50) threeBars (by decide) (by decide)⟩

theorem subV_none_right (x : V) : subV x none = none := by cases x <;> rfl

theorem divV_none_right (x : V) : divV x none = none := by cases x <;> rfl

/-! ## Claim C9 -/

/-- Claim C9 (confirmed).  The `total_return` conventions diverge per
variant: `SmaCrossoverStrategy.get_metrics` computes the absolute dollar
delta `balance.iloc[-1] - balance.iloc[0]` (and since its `balance.iloc[0]`
is NaN, the metric value is in fact always NaN on non-empty input);
`RsiBollingerStrategy.get_metrics` computes the fractional return
`final / initial - 1` (guarded to 0 when an endpoint compares equal to 0),
with `initial = 10000`; `VWAPReversionStrategy.get_metrics` computes the
fractional return `iloc[-1] / iloc[0] - 1` (and since its `iloc[0]` is NaN,
its value is always NaN on non-empty input). -/
theorem C9_theorem (short long rp bp : ℕ) (closes : List ℚ) (θ : ℚ)
    (bars : List Bar) (hc : closes ≠ []) (hb : bars ≠ []) :
    (SmaCrossoverStrategy.total_return short long closes =
      subV (SmaCrossoverStrategy.final_balance short long closes)
        (getV (SmaCrossoverStrategy.run_backtest short long closes 10000) 0) ∧
      SmaCrossoverStrategy.total_return short long closes = none) ∧
    (getV ((RsiBollingerStrategy.run_backtest rp bp closes 10000 (1 / 10 ^ 4)
        (1 / 10 ^ 4) 1).balance) 0 = some 10000 ∧
      (∀ q : ℚ, q ≠ 0 →
        getV ((RsiBollingerStrategy.run_backtest rp bp closes 10000 (1 / 10 ^ 4)
            (1 / 10 ^ 4) 1).balance)
          (((RsiBollingerStrategy.run_backtest rp bp closes 10000 (1 / 10 ^ 4)
            (1 / 10 ^ 4) 1).balance).length - 1) = some q →
        RsiBollingerStrategy.total_return rp bp closes =
          some (q / 10000 - 1))) ∧
    (VWAPReversionStrategy.total_return θ bars =
      subV (divV (getV (VWAPReversionStrategy.metricsBalance θ bars)
          ((VWAPReversionStrategy.metricsBalance θ bars).length - 1))
        (getV (VWAPReversionStrategy.metricsBalance θ bars) 0)) (some 1) ∧
      VWAPReversionStrategy.total_return θ bars = none) := by
  refine ⟨⟨rfl, ?_⟩, ⟨?_, ?_⟩, rfl, ?_⟩
  · unfold SmaCrossoverStrategy.total_return
    rw [sma_balance_zero short long closes 10000 hc]
    exact subV_none_right _
  · exact rsi_balance_zero rp bp closes 10000 (1 / 10 ^ 4)
      (1 / 10 ^ 4) 1 hc
  · intro q hq hlast
    unfold RsiBollingerStrategy.total_return RsiBollingerStrategy.metricsBalance
    rw [rsi_balance_zero rp bp closes 10000 (1 / 10 ^ 4)
      (1 / 10 ^ 4) 1 hc, hlast]
    rw [if_neg (by simp [eqZeroV, hq])]
    norm_num [divV, subV]
  · unfold VWAPReversionStrategy.total_return VWAPReversionStrategy.metricsBalance
    rw [vwap_balance_zero θ bars 10000 (1 / 10 ^ 3) hb,
      divV_none_right]
    rfl

/-- Claim C9 witness: the three conventions evaluated on concrete series. -/
theorem C9_witness :
    ([100, 101] : List ℚ) ≠ [] ∧ oneBar ≠ [] ∧ (10000 : ℚ) ≠ 0 ∧
    getV ((RsiBollingerStrategy.run_backtest 14 20 [100, 101] 10000 (1 / 10 ^ 4)
        (1 / 10 ^ 4) 1).balance)
      (((RsiBollingerStrategy.run_backtest 14 20 [100, 101] 10000 (1 / 10 ^ 4)
        (1 / 10 ^ 4) 1).balance).length - 1) = some 10000 ∧
    SmaCrossoverStrategy.total_return 10 50 [100, 101] = none ∧
    RsiBollingerStrategy.total_return 14 20 [100, 101] =
      some ((10000 : ℚ) / 10000 - 1) ∧
    VWAPReversionStrategy.total_return (1 / 50) oneBar = none :=
  ⟨by decide, by decide, by decide, by decide,
    ((C9_theorem 10 50 14 20 [100, 101] (1 / 50) oneBar (by decide)
      (by decide)).1).2,
    ((C9_theorem 10 50 14 20 [100, 101] (1 / 50) oneBar (by decide)
      (by decide)).2.1).2 10000 (by decide) (by decide),
    ((C9_theorem 10 50 14 20 [100, 101] (1 / 50) oneBar (by decide)
      (by decide)).2.2).2⟩

/-! ## Claim C10 -/

theorem getElem?_setColH_ne {h : Heap} {i j : ℕ} (hne : i ≠ j)
    (name : String) (xs : List V) : (setColH h i name xs)[j]? = h[j]? :=
  List.getElem?_set_ne hne

theorem getElem?_append_frame {h : Heap} {j : ℕ} (f : Frame)
    (hj : j < h.length) : (h ++ [f])[j]? = h[j]? := by
  rw [List.getElem?_append]
  exact if_pos hj

theorem sma_genH_snd (short long : ℕ) (h : Heap) (pd : ℕ) :
    (SmaCrossoverStrategy.generate_signalsH short long h pd).2 = h.length := rfl

theorem sma_genH_preserves (short long : ℕ) (h : Heap)
    (pd : ℕ) (hpd : pd < h.length) :
    ((SmaCrossoverStrategy.generate_signalsH short long h pd).1)[pd]? =
      h[pd]? := by
  show (setColH (setColH (setColH (h ++ [readF h pd]) h.length _ _) h.length
    _ _) h.length _ _)[pd]? = h[pd]?
  rw [getElem?_setColH_ne (ne_of_gt hpd), getElem?_setColH_ne (ne_of_gt hpd),
    getElem?_setColH_ne (ne_of_gt hpd), getElem?_append_frame _ hpd]

theorem sma_runH_preserves (short long : ℕ) (init : ℚ)
    (h : Heap) (pd : ℕ) (hpd : pd < h.length) :
    ((SmaCrossoverStrategy.run_backtestH short long init h pd).1)[pd]? =
      h[pd]? := by
  show (setColH (setColH (SmaCrossoverStrategy.generate_signalsH short long h
    pd).1 (SmaCrossoverStrategy.generate_signalsH short long h pd).2 _ _)
    (SmaCrossoverStrategy.generate_signalsH short long h pd).2 _ _)[pd]? =
    h[pd]?
  rw [sma_genH_snd, getElem?_setColH_ne (ne_of_gt hpd),
    getElem?_setColH_ne (ne_of_gt hpd)]
  exact sma_genH_preserves short long h pd hpd

theorem rsi_genH_snd (rp bp : ℕ) (h : Heap) (pd : ℕ) :
    (RsiBollingerStrategy.generate_signalsH rp bp h pd).2 = h.length := rfl

theorem rsi_genH_preserves (rp bp : ℕ) (h : Heap) (pd : ℕ)
    (hpd : pd < h.length) :
    ((RsiBollingerStrategy.generate_signalsH rp bp h pd).1)[pd]? = h[pd]? := by
  show (setColH (setColH (setColH (setColH (setColH (h ++ [readF h pd])
    h.length _ _) h.length _ _) h.length _ _) h.length _ _) h.length
    _ _)[pd]? = h[pd]?
  rw [getElem?_setColH_ne (ne_of_gt hpd), getElem?_setColH_ne (ne_of_gt hpd),
    getElem?_setColH_ne (ne_of_gt hpd), getElem?_setColH_ne (ne_of_gt hpd),
    getElem?_setColH_ne (ne_of_gt hpd), getElem?_append_frame _ hpd]

theorem rsi_runH_preserves (rp bp : ℕ)
    (init cost slip : ℚ) (lag : ℕ) (h : Heap) (pd : ℕ)
    (hpd : pd < h.length) :
    ((RsiBollingerStrategy.run_backtestH rp bp init cost slip lag h
      pd).1)[pd]? = h[pd]? := by
  unfold RsiBollingerStrategy.run_backtestH
  by_cases hs : sumV (getColF (readF (RsiBollingerStrategy.generate_signalsH
      rp bp h pd).1 (RsiBollingerStrategy.generate_signalsH rp bp h pd).2)
      "signal") = 0
  · simp only [hs, if_pos]
    rw [rsi_genH_snd, getElem?_setColH_ne (ne_of_gt hpd)]
    exact rsi_genH_preserves rp bp h pd hpd
  · simp only [hs, if_false]
    rw [rsi_genH_snd, getElem?_setColH_ne (ne_of_gt hpd),
      getElem?_setColH_ne (ne_of_gt hpd), getElem?_setColH_ne (ne_of_gt hpd),
      getElem?_setColH_ne (ne_of_gt hpd), getElem?_setColH_ne (ne_of_gt hpd)]
    exact rsi_genH_preserves rp bp h pd hpd

theorem VWAPReversionStrategy.vwapH_snd (h : Heap) (pd : ℕ) :
    (VWAPReversionStrategy.calculate_vwapH h pd).2 = h.length := rfl

theorem VWAPReversionStrategy.vwapH_preserves (h : Heap) (pd : ℕ)
    (hpd : pd < h.length) :
    ((VWAPReversionStrategy.calculate_vwapH h pd).1)[pd]? = h[pd]? := by
  show (setColH (setColH (setColH (setColH (h ++ [readF h pd]) h.length _ _)
    h.length _ _) h.length _ _) h.length _ _)[pd]? = h[pd]?
  rw [getElem?_setColH_ne (ne_of_gt hpd), getElem?_setColH_ne (ne_of_gt hpd),
    getElem?_setColH_ne (ne_of_gt hpd), getElem?_setColH_ne (ne_of_gt hpd),
    getElem?_append_frame _ hpd]

theorem vwap_genH_snd (θ : ℚ) (h : Heap) (pd : ℕ) :
    (VWAPReversionStrategy.generate_signalsH θ h pd).2 = h.length := rfl

theorem vwap_genH_preserves (θ : ℚ) (h : Heap) (pd : ℕ)
    (hpd : pd < h.length) :
    ((VWAPReversionStrategy.generate_signalsH θ h pd).1)[pd]? = h[pd]? := by
  show (setColH (setColH (setColH (setColH (setColH
    (VWAPReversionStrategy.calculate_vwapH h pd).1
    (VWAPReversionStrategy.calculate_vwapH h pd).2 _ _)
    (VWAPReversionStrategy.calculate_vwapH h pd).2 _ _)
    (VWAPReversionStrategy.calculate_vwapH h pd).2 _ _)
    (VWAPReversionStrategy.calculate_vwapH h pd).2 _ _)
    (VWAPReversionStrategy.calculate_vwapH h pd).2 _ _)[pd]? = h[pd]?
  rw [VWAPReversionStrategy.vwapH_snd, getElem?_setColH_ne (ne_of_gt hpd),
    getElem?_setColH_ne (ne_of_gt hpd), getElem?_setColH_ne (ne_of_gt hpd),
    getElem?_setColH_ne (ne_of_gt hpd), getElem?_setColH_ne (ne_of_gt hpd)]
  exact VWAPReversionStrategy.vwapH_preserves h pd hpd

theorem vwap_runH_preserves (θ : ℚ) (init cost : ℚ)
    (h : Heap) (pd : ℕ) (hpd : pd < h.length) :
    ((VWAPReversionStrategy.run_backtestH θ init cost h pd).1)[pd]? =
      h[pd]? := by
  show (setColH (setColH (setColH (setColH
    (VWAPReversionStrategy.generate_signalsH θ h pd).1
    (VWAPReversionStrategy.generate_signalsH θ h pd).2 _ _)
    (VWAPReversionStrategy.generate_signalsH θ h pd).2 _ _)
    (VWAPReversionStrategy.generate_signalsH θ h pd).2 _ _)
    (VWAPReversionStrategy.generate_signalsH θ h pd).2 _ _)[pd]? = h[pd]?
  rw [vwap_genH_snd, getElem?_setColH_ne (ne_of_gt hpd),
    getElem?_setColH_ne (ne_of_gt hpd), getElem?_setColH_ne (ne_of_gt hpd),
    getElem?_setColH_ne (ne_of_gt hpd)]
  exact vwap_genH_preserves θ h pd hpd

/-- Claim C10 (confirmed).  Under the explicit reference-semantics model of
DataFrames (a heap of frames; `.copy()` allocates, column assignment and
`.loc` subtraction mutate in place), every `generate_signals` and
`run_backtest` of the three strategies works on a copy and leaves the
caller's `price_data` frame bit-identical. -/
theorem C10_theorem (short long rp bp lag : ℕ) (init cost slip θ : ℚ)
    (h : Heap) (pd : ℕ) (hpd : pd < h.length) :
    ((SmaCrossoverStrategy.generate_signalsH short long h pd).1)[pd]? =
        h[pd]? ∧
    ((SmaCrossoverStrategy.run_backtestH short long init h pd).1)[pd]? =
        h[pd]? ∧
    ((RsiBollingerStrategy.generate_signalsH rp bp h pd).1)[pd]? = h[pd]? ∧
    ((RsiBollingerStrategy.run_backtestH rp bp init cost slip lag h
        pd).1)[pd]? = h[pd]? ∧
    ((VWAPReversionStrategy.generate_signalsH θ h pd).1)[pd]? = h[pd]? ∧
    ((VWAPReversionStrategy.run_backtestH θ init cost h pd).1)[pd]? = h[pd]? :=
  ⟨sma_genH_preserves short long h pd hpd,
    sma_runH_preserves short long init h pd hpd,
    rsi_genH_preserves rp bp h pd hpd,
    rsi_runH_preserves rp bp init cost slip lag h pd hpd,
    vwap_genH_preserves θ h pd hpd,
    vwap_runH_preserves θ init cost h pd hpd⟩

/-- Claim C10 witness: a concrete one-frame heap holding a two-bar
price-data frame; all six methods leave it untouched. -/
theorem C10_witness :
    0 < ([[("close", [some 100, some 101]),
      ("volume", [some 10, some 10])]] : Heap).length ∧
    (((SmaCrossoverStrategy.generate_signalsH 1 2
        [[("close", [some 100, some 101]), ("volume", [some 10, some 10])]]
        0).1)[0]? =
      ([[("close", [some 100, some 101]),
        ("volume", [some 10, some 10])]] : Heap)[0]? ∧
    ((SmaCrossoverStrategy.run_backtestH 1 2 10000
        [[("close", [some 100, some 101]), ("volume", [some 10, some 10])]]
        0).1)[0]? =
      ([[("close", [some 100, some 101]),
        ("volume", [some 10, some 10])]] : Heap)[0]? ∧
    ((RsiBollingerStrategy.generate_signalsH 2 6
        [[("close", [some 100, some 101]), ("volume", [some 10, some 10])]]
        0).1)[0]? =
      ([[("close", [some 100, some 101]),
        ("volume", [some 10, some 10])]] : Heap)[0]? ∧
    ((RsiBollingerStrategy.run_backtestH 2 6 10000 (1 / 10 ^ 4) (1 / 10 ^ 4) 1
        [[("close", [some 100, some 101]), ("volume", [some 10, some 10])]]
        0).1)[0]? =
      ([[("close", [some 100, some 101]),
        ("volume", [some 10, some 10])]] : Heap)[0]? ∧
    ((VWAPReversionStrategy.generate_signalsH (1 / 50)
        [[("close", [some 100, some 101]), ("volume", [some 10, some 10])]]
        0).1)[0]? =
      ([[("close", [some 100, some 101]),
        ("volume", [some 10, some 10])]] : Heap)[0]? ∧
    ((VWAPReversionStrategy.run_backtestH (1 / 50) 10000 (1 / 10 ^ 3)
        [[("close", [some 100, some 101]), ("volume", [some 10, some 10])]]
        0).1)[0]? =
      ([[("close", [some 100, some 101]),
        ("volume", [some 10, some 10])]] : Heap)[0]?) :=
  ⟨by decide,
    C10_theorem 1 2 2 6 1 10000 (1 / 10 ^ 4) (1 / 10 ^ 4) (1 / 50)
      [[("close", [some 100, some 101]), ("volume", [some 10, some 10])]] 0
      (by decide)⟩
